import Mathlib

/-!
Verification of the JSON recursive-descent parser in src/main.rs.

The parser is embedded shallowly: the Rust Peekable<Chars> cursor becomes a
List Char threaded through each sub-parser, which returns the parsed result
together with the remaining input.  Rust Option-failure, Rust panics
(assert! and .unwrap()) and fuel exhaustion of the embedding are kept apart
by a four-valued result type.  The f64 number values are modelled as exact
rationals (Rat); rounding of f64 arithmetic is abstracted away, the
rational value is the exact value of the arithmetic expression the code
computes.  u32/i32 arithmetic is modelled with explicit wrapping modulo
2^32 (release-mode Rust semantics).
-/

namespace JsonParser

/-- Models Rust char::is_whitespace, i.e. the Unicode White_Space property.
The 25 White_Space code points are listed exhaustively, so this is exact. -/
def isWhitespace (c : Char) : Bool :=
  (9 ≤ c.toNat && c.toNat ≤ 13) || c.toNat == 32 || c.toNat == 133 ||
  c.toNat == 160 || c.toNat == 0x1680 ||
  (0x2000 ≤ c.toNat && c.toNat ≤ 0x200A) ||
  c.toNat == 0x2028 || c.toNat == 0x2029 || c.toNat == 0x202F ||
  c.toNat == 0x205F || c.toNat == 0x3000

/-- Char is one of the ASCII digits 0-9. -/
def isAsciiDigit (c : Char) : Bool :=
  48 ≤ c.toNat && c.toNat ≤ 57

/-- Models Rust char::is_numeric (Unicode general categories Nd, Nl, No).
The full Unicode table is not reproduced; the model is exact on the ASCII
digits and on the listed non-ASCII ranges (superscripts and vulgar
fractions of Latin-1, Arabic-Indic and Devanagari digits), which cover
every character this development evaluates the parser on.  The essential
feature of the source is preserved: there are characters (e.g. U+00B2)
for which isNumeric is true but toDigit10 is none. -/
def isNumeric (c : Char) : Bool :=
  (48 ≤ c.toNat && c.toNat ≤ 57) ||
  c.toNat == 0xB9 || c.toNat == 0xB2 || c.toNat == 0xB3 ||
  c.toNat == 0xBC || c.toNat == 0xBD || c.toNat == 0xBE ||
  (0x660 ≤ c.toNat && c.toNat ≤ 0x669) ||
  (0x966 ≤ c.toNat && c.toNat ≤ 0x96F)

/-- Models Rust char::to_digit(10): some digit for '0'..='9', else none. -/
def toDigit10 (c : Char) : Option Nat :=
  if 48 ≤ c.toNat && c.toNat ≤ 57 then some (c.toNat - 48) else none

/-- Result of a sub-parser: the parsed value with the remaining input,
a Rust None (parse failure), a Rust panic (failed assert! or .unwrap()),
or exhaustion of the embedding's fuel (an artifact of the embedding,
proved unreachable for the fuel the top-level parse supplies). -/
inductive PRes (α : Type) where
  | ok (a : α) (rest : List Char)
  | fail
  | panic
  | out
deriving Repr

/-- Result of the top-level parse: Some value, None, a panic, or fuel
exhaustion (again proved unreachable). -/
inductive POut (α : Type) where
  | ok (a : α)
  | fail
  | panic
  | out
deriving Repr

/-- The Value enum of the source.  Object's HashMap<String, Box<Value>> is
modelled as an association list with at most one entry per key, maintained
by assocInsert which overwrites the entry of an existing key exactly like
HashMap::insert. -/
inductive Value where
  | object (members : List (String × Value))
  | array (elems : List Value)
  | str (s : String)
  | number (q : Rat)
  | true
  | false
  | null

/-- Models HashMap::insert: overwrite the value stored at an existing key,
otherwise add a new entry. -/
def assocInsert (k : String) (v : Value) : List (String × Value) → List (String × Value)
  | [] => [(k, v)]
  | (k', v') :: rest =>
      if k = k' then (k, v) :: rest else (k', v') :: assocInsert k v rest

/-- Models skip_whitespace (main.rs 250-258): drop the maximal run of
whitespace characters. -/
def skip_whitespace : List Char → List Char
  | [] => []
  | c :: rest => if isWhitespace c then skip_whitespace rest else c :: rest

/-- The escape table of parse_string (main.rs 49-60): the decoded
replacement character, or none for 'u' (unimplemented in the source) and
for every other character (both return None in the source).  Note the
source maps 'f' to \x12, not to form feed \x0C. -/
def escape_char (e : Char) : Option Char :=
  if e = '"' then some '"'
  else if e = '\\' then some '\\'
  else if e = '/' then some '/'
  else if e = 'b' then some '\x08'
  else if e = 'f' then some '\x12'
  else if e = 'n' then some '\n'
  else if e = 'r' then some '\r'
  else if e = 't' then some '\t'
  else none

/-- Prepend a decoded character to the string being accumulated by
parse_string's loop (str.push in the source, seen from the front). -/
def pres_cons (d : Char) : PRes (List Char) → PRes (List Char)
  | .ok s r => .ok (d :: s) r
  | .fail => .fail
  | .panic => .panic
  | .out => .out

/-- The while-let loop of parse_string (main.rs 45-64), entered after the
opening quote was consumed. -/
def parse_string_loop : List Char → PRes (List Char)
  | [] => .fail
  | c :: rest =>
      if c = '"' then .ok [] rest
      else if c = '\\' then
        match rest with
        | [] => .fail
        | e :: rest' =>
            match escape_char e with
            | some d => pres_cons d (parse_string_loop rest')
            | none => .fail
      else pres_cons c (parse_string_loop rest)

/-- Models parse_string (main.rs 40-66). -/
def parse_string (s : List Char) : PRes (List Char) :=
  match s with
  | [] => .fail
  | c :: rest => if c = '"' then parse_string_loop rest else .fail

/-- The while-let loop of parse_digits (main.rs 128-135).  The u32
accumulator wraps modulo 2^32; to_digit(10).unwrap() on a numeric
character that is not an ASCII digit is a panic. -/
def parse_digits_loop (num : Nat) : List Char → PRes Nat
  | [] => .ok num []
  | c :: rest =>
      if isNumeric c then
        match toDigit10 c with
        | some d => parse_digits_loop ((10 * num + d) % 4294967296) rest
        | none => .panic
      else .ok num (c :: rest)

/-- Models parse_digits (main.rs 120-138): fail unless the first character
is numeric, then accumulate the maximal numeric run. -/
def parse_digits (s : List Char) : PRes Nat :=
  match s with
  | [] => .fail
  | c :: rest => if isNumeric c then parse_digits_loop 0 (c :: rest) else .fail

/-- Models the Rust cast num as i32 of a u32 value. -/
def u32_to_i32 (n : Nat) : Int :=
  if n < 2147483648 then (n : Int) else (n : Int) - 4294967296

/-- Wrap an integer into the i32 range (release-mode overflow semantics of
the i32 multiplication sign * num). -/
def wrap_i32 (x : Int) : Int :=
  (x + 2147483648) % 4294967296 - 2147483648

/-- Models parse_integer (main.rs 77-89): peek for an optional '-'
(consumed when present), then digits; result sign * (num as i32). -/
def parse_integer (s : List Char) : PRes Int :=
  match s with
  | [] => .fail
  | c :: rest =>
      let sign : Int := if c = '-' then -1 else 1
      match parse_digits (if c = '-' then rest else c :: rest) with
      | .ok num r => .ok (wrap_i32 (sign * u32_to_i32 num)) r
      | .fail => .fail
      | .panic => .panic
      | .out => .out

/-- Value of a digit run read most-significant first, starting from an
accumulator (pure mathematical value, no wrapping). -/
def digits_val : Nat → List Char → Nat
  | a, [] => a
  | a, c :: rest => digits_val (10 * a + (c.toNat - 48)) rest

/-- Mathematical value of a digit run. -/
def digitsToNat (ds : List Char) : Nat := digits_val 0 ds

/-- The collection loop of parse_fraction (main.rs 102-109): split off the
maximal run of numeric characters. -/
def frac_take : List Char → List Char × List Char
  | [] => ([], [])
  | c :: rest =>
      if isNumeric c then
        let p := frac_take rest
        (c :: p.1, p.2)
      else ([], c :: rest)

/-- Models the "0.<digits>".parse::<f64>().unwrap() of parse_fraction
(main.rs 112): the f64 parse succeeds exactly when every collected
character is an ASCII digit, and its value is the decimal fraction
(f64 rounding abstracted to the exact rational); otherwise the unwrap
panics. -/
def fracValue (ds : List Char) : Option Rat :=
  if ds.all isAsciiDigit then some ((digitsToNat ds : Rat) / 10 ^ ds.length)
  else none

/-- Models parse_fraction (main.rs 91-118): on '.', require a numeric
character, collect the maximal numeric run and parse it as a float
(panicking if the float parse fails); without '.', fraction 0. -/
def parse_fraction (s : List Char) : PRes Rat :=
  match s with
  | [] => .ok 0 []
  | c :: rest =>
      if c = '.' then
        match rest with
        | [] => .fail
        | c2 :: _ =>
            if isNumeric c2 then
              match fracValue (frac_take rest).1 with
              | some v => .ok v (frac_take rest).2
              | none => .panic
            else .fail
      else .ok 0 (c :: rest)

/-- Models parse_sign (main.rs 152-158).  Note: the source only peeks and
never advances the iterator, so the sign character, when present, is NOT
consumed; the embedding reproduces this faithfully. -/
def parse_sign (s : List Char) : PRes Int :=
  match s with
  | [] => .ok 1 []
  | c :: rest =>
      if c = '+' then .ok 1 (c :: rest)
      else if c = '-' then .ok (-1) (c :: rest)
      else .ok 1 (c :: rest)

/-- Models parse_exponent (main.rs 140-150): on 'e'/'E', read the sign
(peek only) and then digits; otherwise exponent 0. -/
def parse_exponent (s : List Char) : PRes Int :=
  match s with
  | [] => .ok 0 []
  | c :: rest =>
      if c = 'e' ∨ c = 'E' then
        match parse_sign rest with
        | .ok sign r1 =>
            match parse_digits r1 with
            | .ok num r2 => .ok (wrap_i32 (sign * u32_to_i32 num)) r2
            | .fail => .fail
            | .panic => .panic
            | .out => .out
        | .fail => .fail
        | .panic => .panic
        | .out => .out
      else .ok 0 (c :: rest)

/-- Models parse_number (main.rs 68-75): value =
((int as f64) + fraction) * 10_f64.powi(exponent), as an exact rational. -/
def parse_number (s : List Char) : PRes Value :=
  match parse_integer s with
  | .ok int r1 =>
      match parse_fraction r1 with
      | .ok fr r2 =>
          match parse_exponent r2 with
          | .ok ex r3 => .ok (.number (((int : Rat) + fr) * 10 ^ ex)) r3
          | .fail => .fail
          | .panic => .panic
          | .out => .out
      | .fail => .fail
      | .panic => .panic
      | .out => .out
  | .fail => .fail
  | .panic => .panic
  | .out => .out

/-- Models parse_true (main.rs 221-227): match the exact characters, any
mismatch or end of input fails. -/
def parse_true (s : List Char) : PRes Value :=
  match s with
  | c1 :: c2 :: c3 :: c4 :: rest =>
      if c1 = 't' ∧ c2 = 'r' ∧ c3 = 'u' ∧ c4 = 'e' then .ok Value.true rest
      else .fail
  | _ => .fail

/-- Models parse_false (main.rs 229-240). -/
def parse_false (s : List Char) : PRes Value :=
  match s with
  | c1 :: c2 :: c3 :: c4 :: c5 :: rest =>
      if c1 = 'f' ∧ c2 = 'a' ∧ c3 = 'l' ∧ c4 = 's' ∧ c5 = 'e' then
        .ok Value.false rest
      else .fail
  | _ => .fail

/-- Models parse_null (main.rs 242-248). -/
def parse_null (s : List Char) : PRes Value :=
  match s with
  | c1 :: c2 :: c3 :: c4 :: rest =>
      if c1 = 'n' ∧ c2 = 'u' ∧ c3 = 'l' ∧ c4 = 'l' then .ok Value.null rest
      else .fail
  | _ => .fail

mutual

/-- Models parse_element (main.rs 19-25): whitespace, value, whitespace.
The fuel argument makes the mutual recursion structural; it is an artifact
of the embedding (the source recursion has no counter) and is proved
sufficient for the fuel supplied by the top-level parse. -/
def parse_element : Nat → List Char → PRes Value
  | 0, _ => .out
  | f + 1, s =>
      match parse_value f (skip_whitespace s) with
      | .ok v r => .ok v (skip_whitespace r)
      | .fail => .fail
      | .panic => .panic
      | .out => .out

/-- Models parse_value (main.rs 27-38): dispatch on one peeked character,
in the order of the source's match arms. -/
def parse_value : Nat → List Char → PRes Value
  | 0, _ => .out
  | f + 1, s =>
      match s with
      | [] => .fail
      | c :: rest =>
          if c = '"' then
            match parse_string (c :: rest) with
            | .ok str r => .ok (.str (String.mk str)) r
            | .fail => .fail
            | .panic => .panic
            | .out => .out
          else if isNumeric c ∨ c = '-' then parse_number (c :: rest)
          else if c = '{' then parse_object f (c :: rest)
          else if c = '[' then parse_array f (c :: rest)
          else if c = 't' then parse_true (c :: rest)
          else if c = 'f' then parse_false (c :: rest)
          else if c = 'n' then parse_null (c :: rest)
          else .fail

/-- Models parse_object (main.rs 160-163): assert!(next == given the
dispatch, a non-brace first character is a panic of the assert; end of
input is a fail of the ? operator), then skip whitespace and loop. -/
def parse_object : Nat → List Char → PRes Value
  | 0, _ => .out
  | f + 1, s =>
      match s with
      | [] => .fail
      | c :: rest =>
          if c = '{' then parse_object_loop f [] (skip_whitespace rest)
          else .panic

/-- Models the while-let loop of parse_object (main.rs 165-180): close on
a brace, otherwise consume one comma when peeked, parse a member, insert
(overwriting an existing key), skip whitespace; end of input fails. -/
def parse_object_loop : Nat → List (String × Value) → List Char → PRes Value
  | 0, _, _ => .out
  | f + 1, map, s =>
      match s with
      | [] => .fail
      | c :: rest =>
          if c = '}' then .ok (.object map) rest
          else
            match parse_member f (if c = ',' then rest else c :: rest) with
            | .ok kv r =>
                parse_object_loop f (assocInsert kv.1 kv.2 map) (skip_whitespace r)
            | .fail => .fail
            | .panic => .panic
            | .out => .out

/-- Models parse_member (main.rs 183-194): whitespace, key string,
whitespace, mandatory colon, whitespace, element. -/
def parse_member : Nat → List Char → PRes (String × Value)
  | 0, _ => .out
  | f + 1, s =>
      match parse_string (skip_whitespace s) with
      | .ok str r =>
          match skip_whitespace r with
          | [] => .fail
          | c :: r2 =>
              if c = ':' then
                match parse_element f (skip_whitespace r2) with
                | .ok v r3 => .ok (String.mk str, v) r3
                | .fail => .fail
                | .panic => .panic
                | .out => .out
              else .fail
      | .fail => .fail
      | .panic => .panic
      | .out => .out

/-- Models parse_array (main.rs 196-203): a non-bracket first character or
end of input fails (plain if, no assert here), then skip whitespace and
loop. -/
def parse_array : Nat → List Char → PRes Value
  | 0, _ => .out
  | f + 1, s =>
      match s with
      | [] => .fail
      | c :: rest =>
          if c = '[' then parse_array_loop f [] (skip_whitespace rest)
          else .fail

/-- Models the while-let loop of parse_array (main.rs 205-218): close on a
bracket, otherwise consume one comma when peeked, parse an element, push
it, skip whitespace; end of input fails. -/
def parse_array_loop : Nat → List Value → List Char → PRes Value
  | 0, _, _ => .out
  | f + 1, vec, s =>
      match s with
      | [] => .fail
      | c :: rest =>
          if c = ']' then .ok (.array vec) rest
          else
            match parse_element f (if c = ',' then rest else c :: rest) with
            | .ok v r => parse_array_loop f (vec ++ [v]) (skip_whitespace r)
            | .fail => .fail
            | .panic => .panic
            | .out => .out

end

/-- Models parse (main.rs 13-17): run parse_element on the character
stream and keep only the value (the unconsumed remainder is dropped, never
inspected).  The fuel 6 * length + 6 is an artifact of the embedding and
is proved sufficient: the .out outcome is unreachable. -/
def parse (input : String) : POut Value :=
  match parse_element (6 * input.toList.length + 6) input.toList with
  | .ok v _ => .ok v
  | .fail => .fail
  | .panic => .panic
  | .out => .out

/-- A decimal number literal, described from its parts: optional '-' sign,
integer digits, optional fraction digits after '.', optional exponent
digits after 'e' (no exponent sign: the source cannot parse signed
exponents, see the C2 analysis). -/
def numInput (sgn : Bool) (ds : List Char) (fs es : Option (List Char)) :
    List Char :=
  (if sgn then ['-'] else []) ++ ds ++
    (match fs with
      | some f => '.' :: f
      | none => []) ++
    (match es with
      | some e => 'e' :: e
      | none => [])

/-- The numeric value the source computes for such a literal:
(signed integer part + fraction) * 10 ^ exponent, the fraction being the
decimal 0.<digits> added to the signed integer part. -/
def numValue (sgn : Bool) (ds : List Char) (fs es : Option (List Char)) :
    Rat :=
  (((if sgn then -(digitsToNat ds : Int) else (digitsToNat ds : Int)) : Rat) +
      (match fs with
        | some f => (digitsToNat f : Rat) / 10 ^ f.length
        | none => 0)) *
    10 ^ (match es with
      | some e => (digitsToNat e : Int)
      | none => 0)

/-! Basic lemmas about the character classes and the small sub-parsers. -/

theorem asciiDigit_toNat {c : Char} (h : isAsciiDigit c = true) :
    48 ≤ c.toNat ∧ c.toNat ≤ 57 := by
  simpa [isAsciiDigit] using h

theorem asciiDigit_isNumeric {c : Char} (h : isAsciiDigit c = true) :
    isNumeric c = true := by
  obtain ⟨h1, h2⟩ := asciiDigit_toNat h
  simp [isNumeric, h1, h2]

theorem asciiDigit_toDigit {c : Char} (h : isAsciiDigit c = true) :
    toDigit10 c = some (c.toNat - 48) := by
  obtain ⟨h1, h2⟩ := asciiDigit_toNat h
  simp [toDigit10, h1, h2]

theorem asciiDigit_not_ws {c : Char} (h : isAsciiDigit c = true) :
    isWhitespace c = false := by
  obtain ⟨h1, h2⟩ := asciiDigit_toNat h
  simp [isWhitespace]
  omega

theorem asciiDigit_ne {c : Char} (h : isAsciiDigit c = true) (d : Char)
    (hd : d.toNat < 48 ∨ 57 < d.toNat) : c ≠ d := by
  obtain ⟨h1, h2⟩ := asciiDigit_toNat h
  intro he
  subst he
  omega

theorem skip_whitespace_length (s : List Char) :
    (skip_whitespace s).length ≤ s.length := by
  induction s with
  | nil => simp [skip_whitespace]
  | cons c rest ih =>
      simp only [skip_whitespace]
      split
      · exact Nat.le_trans ih (by simp)
      · simp

theorem skip_whitespace_cons {c : Char} (rest : List Char)
    (h : isWhitespace c = false) : skip_whitespace (c :: rest) = c :: rest := by
  simp [skip_whitespace, h]

/-! Step equations for parse_string_loop (its equation lemmas split on the
literal characters, so these spell the four shapes out once). -/

theorem psl_nil : parse_string_loop [] = PRes.fail := by
  rw [parse_string_loop.eq_def]

theorem psl_quote (rest : List Char) :
    parse_string_loop ('"' :: rest) = .ok [] rest := by
  rw [parse_string_loop.eq_def]
  simp

theorem psl_esc_nil : parse_string_loop ['\\'] = .fail := by
  rw [parse_string_loop.eq_def]
  simp

theorem psl_esc (e : Char) (rest : List Char) :
    parse_string_loop ('\\' :: e :: rest) =
      (match escape_char e with
        | some d => pres_cons d (parse_string_loop rest)
        | none => .fail) := by
  rw [parse_string_loop.eq_def]
  simp

theorem psl_other (c : Char) (rest : List Char) (h1 : c ≠ '"')
    (h2 : c ≠ '\\') :
    parse_string_loop (c :: rest) = pres_cons c (parse_string_loop rest) := by
  rw [parse_string_loop.eq_def]
  simp [h1, h2]

/-! Lemmas about parse_string. -/

theorem parse_string_loop_ne_out (s : List Char) :
    parse_string_loop s ≠ .out := by
  induction s using parse_string_loop.induct with
  | case1 => simp [psl_nil]
  | case2 rest => simp [psl_quote]
  | case3 h => simp [psl_esc_nil]
  | case4 c rest d hd h ih =>
      rw [psl_esc, hd]
      cases hrec : parse_string_loop rest with
      | ok a r => simp [pres_cons]
      | fail => simp [pres_cons]
      | panic => simp [pres_cons]
      | out => exact absurd hrec ih
  | case5 c rest hd h =>
      rw [psl_esc, hd]
      simp
  | case6 c rest h1 h2 ih =>
      rw [psl_other c rest h1 h2]
      cases hrec : parse_string_loop rest with
      | ok a r => simp [pres_cons]
      | fail => simp [pres_cons]
      | panic => simp [pres_cons]
      | out => exact absurd hrec ih

theorem parse_string_loop_length (s : List Char) (a : List Char)
    (r : List Char) (h : parse_string_loop s = .ok a r) :
    r.length < s.length := by
  induction s using parse_string_loop.induct generalizing a r with
  | case1 => simp [psl_nil] at h
  | case2 rest =>
      rw [psl_quote] at h
      cases h
      simp
  | case3 hc => simp [psl_esc_nil] at h
  | case4 c rest d hd hc ih =>
      rw [psl_esc, hd] at h
      cases hrec : parse_string_loop rest <;> rw [hrec] at h <;>
        simp [pres_cons] at h
      obtain ⟨h3, h4⟩ := h
      subst h4
      have := ih _ _ hrec
      simp only [List.length_cons]
      omega
  | case5 c rest hd hc =>
      rw [psl_esc, hd] at h
      simp at h
  | case6 c rest h1 h2 ih =>
      rw [psl_other c rest h1 h2] at h
      cases hrec : parse_string_loop rest <;> rw [hrec] at h <;>
        simp [pres_cons] at h
      obtain ⟨h3, h4⟩ := h
      subst h4
      have := ih _ _ hrec
      simp only [List.length_cons]
      omega

theorem parse_string_ne_out (s : List Char) : parse_string s ≠ .out := by
  unfold parse_string
  split
  · simp
  · split
    · exact parse_string_loop_ne_out _
    · simp

theorem parse_string_length {s a r : List Char}
    (h : parse_string s = .ok a r) : r.length < s.length := by
  unfold parse_string at h
  split at h
  · simp at h
  · split at h
    · have := parse_string_loop_length _ _ _ h
      simp only [List.length_cons]
      omega
    · simp at h

theorem parse_string_loop_key (kl rest : List Char)
    (h : ∀ c ∈ kl, c ≠ '"' ∧ c ≠ '\\') :
    parse_string_loop (kl ++ '"' :: rest) = .ok kl rest := by
  induction kl with
  | nil => simp [psl_quote]
  | cons c kl' ih =>
      obtain ⟨h1, h2⟩ := h c (by simp)
      rw [List.cons_append, psl_other c _ h1 h2,
        ih (fun c hc => h c (by simp [hc]))]
      simp [pres_cons]

theorem parse_string_key (kl rest : List Char)
    (h : ∀ c ∈ kl, c ≠ '"' ∧ c ≠ '\\') :
    parse_string ('"' :: (kl ++ '"' :: rest)) = .ok kl rest := by
  simp [parse_string, parse_string_loop_key kl rest h]

theorem parse_string_loop_no_quote (s : List Char) (h1 : '"' ∉ s)
    (h2 : '\\' ∉ s) : parse_string_loop s = .fail := by
  induction s with
  | nil => exact psl_nil
  | cons c rest ih =>
      simp only [List.mem_cons, not_or] at h1 h2
      rw [psl_other c rest (Ne.symm h1.1) (Ne.symm h2.1), ih h1.2 h2.2]
      simp [pres_cons]

/-! Lemmas about parse_digits. -/

theorem pdl_nil (num : Nat) : parse_digits_loop num [] = .ok num [] := by
  rw [parse_digits_loop.eq_def]

theorem pdl_cons (num : Nat) (c : Char) (rest : List Char) :
    parse_digits_loop num (c :: rest) =
      (if isNumeric c then
        match toDigit10 c with
        | some d => parse_digits_loop ((10 * num + d) % 4294967296) rest
        | none => .panic
      else .ok num (c :: rest)) := by
  rw [parse_digits_loop.eq_def]

theorem parse_digits_loop_ne_out (num : Nat) (s : List Char) :
    parse_digits_loop num s ≠ .out := by
  induction s generalizing num with
  | nil => simp [pdl_nil]
  | cons c rest ih =>
      rw [pdl_cons]
      split
      · cases h : toDigit10 c with
        | some d => exact ih _
        | none => simp
      · simp

theorem parse_digits_loop_length {num : Nat} {s : List Char} {a : Nat}
    {r : List Char} (h : parse_digits_loop num s = .ok a r) :
    r.length ≤ s.length := by
  induction s generalizing num with
  | nil =>
      rw [pdl_nil] at h
      cases h
      simp
  | cons c rest ih =>
      rw [pdl_cons] at h
      split at h
      · cases hd : toDigit10 c <;> rw [hd] at h
        · simp at h
        · have := ih h
          simp only [List.length_cons]
          omega
      · cases h
        simp

theorem pd_nil : parse_digits [] = .fail := by
  rw [parse_digits.eq_def]

theorem pd_cons (c : Char) (rest : List Char) :
    parse_digits (c :: rest) =
      (if isNumeric c then parse_digits_loop 0 (c :: rest) else .fail) := by
  rw [parse_digits.eq_def]

theorem parse_digits_ne_out (s : List Char) : parse_digits s ≠ .out := by
  cases s with
  | nil => simp [pd_nil]
  | cons c rest =>
      rw [pd_cons]
      split
      · exact parse_digits_loop_ne_out _ _
      · simp

theorem parse_digits_length {s : List Char} {a : Nat} {r : List Char}
    (h : parse_digits s = .ok a r) : r.length < s.length := by
  cases s with
  | nil => simp [pd_nil] at h
  | cons c rest =>
      rw [pd_cons] at h
      split at h
      · rename_i hnum
        rw [pdl_cons] at h
        rw [if_pos hnum] at h
        cases hd : toDigit10 c <;> rw [hd] at h
        · simp at h
        · have := parse_digits_loop_length h
          simp only [List.length_cons]
          omega
      · simp at h

theorem digits_val_nil (a : Nat) : digits_val a [] = a := rfl

theorem digits_val_cons (a : Nat) (c : Char) (rest : List Char) :
    digits_val a (c :: rest) = digits_val (10 * a + (c.toNat - 48)) rest := rfl

theorem digits_val_ge (a : Nat) (ds : List Char) : a ≤ digits_val a ds := by
  induction ds generalizing a with
  | nil => simp [digits_val_nil]
  | cons c rest ih =>
      rw [digits_val_cons]
      have := ih (10 * a + (c.toNat - 48))
      omega

theorem parse_digits_loop_spec (ds : List Char) (a : Nat) (rest : List Char)
    (h1 : ∀ c ∈ ds, isAsciiDigit c = true)
    (h2 : ∀ c ∈ rest.head?, isNumeric c = false)
    (h3 : digits_val a ds < 4294967296) :
    parse_digits_loop a (ds ++ rest) = .ok (digits_val a ds) rest := by
  induction ds generalizing a with
  | nil =>
      simp only [List.nil_append, digits_val_nil]
      cases rest with
      | nil => simp [pdl_nil]
      | cons c r' =>
          have := h2 c (by simp)
          rw [pdl_cons, if_neg (by simp [this])]
  | cons d ds' ih =>
      have hd := h1 d (by simp)
      rw [List.cons_append, pdl_cons,
        if_pos (asciiDigit_isNumeric hd), asciiDigit_toDigit hd]
      have hval : digits_val a (d :: ds') = digits_val (10 * a + (d.toNat - 48)) ds' := rfl
      have hlt : 10 * a + (d.toNat - 48) < 4294967296 := by
        have := digits_val_ge (10 * a + (d.toNat - 48)) ds'
        rw [hval] at h3
        omega
      show parse_digits_loop ((10 * a + (d.toNat - 48)) % 4294967296) (ds' ++ rest) =
        .ok (digits_val a (d :: ds')) rest
      rw [Nat.mod_eq_of_lt hlt]
      rw [hval]
      rw [hval] at h3
      exact ih _ (fun c hc => h1 c (by simp [hc])) h3

theorem parse_digits_spec (ds rest : List Char) (h0 : ds ≠ [])
    (h1 : ∀ c ∈ ds, isAsciiDigit c = true)
    (h2 : ∀ c ∈ rest.head?, isNumeric c = false)
    (h3 : digitsToNat ds < 4294967296) :
    parse_digits (ds ++ rest) = .ok (digitsToNat ds) rest := by
  cases ds with
  | nil => exact absurd rfl h0
  | cons d ds' =>
      have hd := h1 d (by simp)
      rw [List.cons_append, pd_cons, if_pos (asciiDigit_isNumeric hd)]
      have := parse_digits_loop_spec (d :: ds') 0 rest h1 h2 h3
      simpa using this

/-! Lemmas about the i32/u32 wrapping helpers. -/

theorem u32_to_i32_eq {n : Nat} (h : n < 2147483648) : u32_to_i32 n = n := by
  simp [u32_to_i32, h]

theorem wrap_i32_eq {x : Int} (h1 : -2147483648 ≤ x) (h2 : x < 2147483648) :
    wrap_i32 x = x := by
  unfold wrap_i32
  have h3 : (0 : Int) ≤ x + 2147483648 := by omega
  have h4 : x + 2147483648 < 4294967296 := by omega
  rw [Int.emod_eq_of_lt h3 h4]
  omega

/-! Lemmas about parse_integer. -/

theorem pi_nil : parse_integer [] = .fail := by
  rw [parse_integer.eq_def]

theorem pi_cons (c : Char) (rest : List Char) :
    parse_integer (c :: rest) =
      (match parse_digits (if c = '-' then rest else c :: rest) with
        | .ok num r =>
            .ok (wrap_i32 ((if c = '-' then (-1 : Int) else 1) * u32_to_i32 num)) r
        | .fail => .fail
        | .panic => .panic
        | .out => .out) := by
  rw [parse_integer.eq_def]

theorem parse_integer_ne_out (s : List Char) : parse_integer s ≠ .out := by
  cases s with
  | nil => simp [pi_nil]
  | cons c rest =>
      rw [pi_cons]
      cases hd : parse_digits (if c = '-' then rest else c :: rest) with
      | ok a r => simp
      | fail => simp
      | panic => simp
      | out => exact absurd hd (parse_digits_ne_out _)

theorem parse_integer_length {s : List Char} {a : Int} {r : List Char}
    (h : parse_integer s = .ok a r) : r.length < s.length := by
  cases s with
  | nil => simp [pi_nil] at h
  | cons c rest =>
      rw [pi_cons] at h
      cases hd : parse_digits (if c = '-' then rest else c :: rest) <;>
        rw [hd] at h <;> simp at h
      obtain ⟨h1, h2⟩ := h
      subst h2
      have := parse_digits_length hd
      by_cases hc : c = '-' <;> simp [hc] at this <;>
        simp only [List.length_cons] <;> omega

theorem parse_integer_spec_pos (ds rest : List Char) (h0 : ds ≠ [])
    (h1 : ∀ c ∈ ds, isAsciiDigit c = true)
    (h2 : ∀ c ∈ rest.head?, isNumeric c = false)
    (h3 : digitsToNat ds < 2147483648) :
    parse_integer (ds ++ rest) = .ok ((digitsToNat ds : Int)) rest := by
  cases ds with
  | nil => exact absurd rfl h0
  | cons d ds' =>
      have hd := h1 d (by simp)
      have hne : d ≠ '-' := asciiDigit_ne hd '-' (by decide)
      rw [List.cons_append, pi_cons, if_neg hne, if_neg hne, ← List.cons_append,
        parse_digits_spec (d :: ds') rest h0 h1 h2 (by omega)]
      show PRes.ok (wrap_i32 (1 * u32_to_i32 (digitsToNat (d :: ds')))) rest =
        PRes.ok ((digitsToNat (d :: ds') : Int)) rest
      rw [u32_to_i32_eq h3, one_mul,
        wrap_i32_eq (by omega) (by exact_mod_cast h3)]

theorem parse_integer_spec_neg (ds rest : List Char) (h0 : ds ≠ [])
    (h1 : ∀ c ∈ ds, isAsciiDigit c = true)
    (h2 : ∀ c ∈ rest.head?, isNumeric c = false)
    (h3 : digitsToNat ds < 2147483648) :
    parse_integer ('-' :: (ds ++ rest)) = .ok (-(digitsToNat ds : Int)) rest := by
  rw [pi_cons, if_pos rfl, if_pos rfl,
    parse_digits_spec ds rest h0 h1 h2 (by omega)]
  show PRes.ok (wrap_i32 (-1 * u32_to_i32 (digitsToNat ds))) rest =
    PRes.ok (-(digitsToNat ds : Int)) rest
  rw [u32_to_i32_eq h3, neg_one_mul, wrap_i32_eq (by omega) (by omega)]

/-! Lemmas about parse_fraction. -/

theorem ft_nil : frac_take [] = ([], []) := by
  rw [frac_take.eq_def]

theorem ft_cons (c : Char) (rest : List Char) :
    frac_take (c :: rest) =
      (if isNumeric c then ((c :: (frac_take rest).1, (frac_take rest).2))
        else ([], c :: rest)) := by
  rw [frac_take.eq_def]

theorem frac_take_len (s : List Char) : (frac_take s).2.length ≤ s.length := by
  induction s with
  | nil => simp [ft_nil]
  | cons c rest ih =>
      rw [ft_cons]
      split
      · simp
        omega
      · simp

theorem frac_take_spec (fs rest : List Char)
    (h1 : ∀ c ∈ fs, isNumeric c = true)
    (h2 : ∀ c ∈ rest.head?, isNumeric c = false) :
    frac_take (fs ++ rest) = (fs, rest) := by
  induction fs with
  | nil =>
      cases rest with
      | nil => simp [ft_nil]
      | cons c r' =>
          have := h2 c (by simp)
          simp [ft_cons, this]
  | cons c fs' ih =>
      have hc := h1 c (by simp)
      rw [List.cons_append, ft_cons, if_pos hc,
        ih (fun c hc2 => h1 c (by simp [hc2]))]

theorem pf_nil : parse_fraction [] = .ok 0 [] := by
  rw [parse_fraction.eq_def]

theorem pf_cons (c : Char) (rest : List Char) :
    parse_fraction (c :: rest) =
      (if c = '.' then
        match rest with
        | [] => .fail
        | c2 :: _ =>
            if isNumeric c2 then
              match fracValue (frac_take rest).1 with
              | some v => .ok v (frac_take rest).2
              | none => .panic
            else .fail
      else .ok 0 (c :: rest)) := by
  rw [parse_fraction.eq_def]

theorem pf_dot_nil : parse_fraction ['.'] = .fail := by
  rw [pf_cons]
  simp

theorem pf_dot_cons (c2 : Char) (r' : List Char) :
    parse_fraction ('.' :: c2 :: r') =
      (if isNumeric c2 then
        match fracValue (frac_take (c2 :: r')).1 with
        | some v => .ok v (frac_take (c2 :: r')).2
        | none => .panic
      else .fail) := by
  rw [pf_cons]
  simp

theorem parse_fraction_ne_out (s : List Char) : parse_fraction s ≠ .out := by
  cases s with
  | nil => simp [pf_nil]
  | cons c rest =>
      by_cases hc : c = '.'
      · subst hc
        cases rest with
        | nil => simp [pf_dot_nil]
        | cons c2 r' =>
            rw [pf_dot_cons]
            split
            · cases fracValue (frac_take (c2 :: r')).1 <;> simp
            · simp
      · rw [pf_cons, if_neg hc]
        simp

theorem parse_fraction_length {s : List Char} {a : Rat} {r : List Char}
    (h : parse_fraction s = .ok a r) : r.length ≤ s.length := by
  cases s with
  | nil =>
      rw [pf_nil] at h
      cases h
      simp
  | cons c rest =>
      by_cases hc : c = '.'
      · subst hc
        cases rest with
        | nil =>
            rw [pf_dot_nil] at h
            simp at h
        | cons c2 r' =>
            rw [pf_dot_cons] at h
            split at h
            · cases hv : fracValue (frac_take (c2 :: r')).1 <;> rw [hv] at h <;>
                simp at h
              obtain ⟨h1, h2⟩ := h
              subst h2
              have := frac_take_len (c2 :: r')
              simp only [List.length_cons] at this ⊢
              omega
            · simp at h
      · rw [pf_cons, if_neg hc] at h
        cases h
        simp

theorem parse_fraction_none (s : List Char)
    (h : ∀ c ∈ s.head?, ¬ c = '.') : parse_fraction s = .ok 0 s := by
  cases s with
  | nil => exact pf_nil
  | cons c rest =>
      rw [pf_cons, if_neg (h c (by simp))]

theorem parse_fraction_spec (fs rest : List Char) (h0 : fs ≠ [])
    (h1 : ∀ c ∈ fs, isAsciiDigit c = true)
    (h2 : ∀ c ∈ rest.head?, isNumeric c = false) :
    parse_fraction ('.' :: (fs ++ rest)) =
      .ok ((digitsToNat fs : Rat) / 10 ^ fs.length) rest := by
  cases fs with
  | nil => exact absurd rfl h0
  | cons f fs' =>
      have hf := h1 f (by simp)
      have htake : frac_take ((f :: fs') ++ rest) = (f :: fs', rest) :=
        frac_take_spec (f :: fs') rest
          (fun c hc => asciiDigit_isNumeric (h1 c hc)) h2
      have hall : (f :: fs').all isAsciiDigit = true := List.all_eq_true.mpr h1
      have hcons : (f :: fs') ++ rest = f :: (fs' ++ rest) := rfl
      rw [hcons, pf_dot_cons, if_pos (asciiDigit_isNumeric hf), ← hcons, htake]
      simp [fracValue, hall]

/-! Lemmas about parse_sign and parse_exponent. -/

theorem psig_nil : parse_sign [] = .ok 1 [] := by
  rw [parse_sign.eq_def]

theorem psig_cons (c : Char) (rest : List Char) :
    parse_sign (c :: rest) =
      (if c = '+' then .ok 1 (c :: rest)
        else if c = '-' then .ok (-1) (c :: rest)
        else .ok 1 (c :: rest)) := by
  rw [parse_sign.eq_def]

theorem psig_other (c : Char) (rest : List Char) (h1 : c ≠ '+')
    (h2 : c ≠ '-') : parse_sign (c :: rest) = .ok 1 (c :: rest) := by
  rw [psig_cons, if_neg h1, if_neg h2]

theorem pe_nil : parse_exponent [] = .ok 0 [] := by
  rw [parse_exponent.eq_def]

theorem pe_cons (c : Char) (rest : List Char) :
    parse_exponent (c :: rest) =
      (if c = 'e' ∨ c = 'E' then
        match parse_sign rest with
        | .ok sign r1 =>
            match parse_digits r1 with
            | .ok num r2 => .ok (wrap_i32 (sign * u32_to_i32 num)) r2
            | .fail => .fail
            | .panic => .panic
            | .out => .out
        | .fail => .fail
        | .panic => .panic
        | .out => .out
      else .ok 0 (c :: rest)) := by
  rw [parse_exponent.eq_def]

theorem parse_sign_shape (s : List Char) :
    parse_sign s = .ok 1 s ∨ parse_sign s = .ok (-1) s := by
  cases s with
  | nil => simp [psig_nil]
  | cons c rest =>
      rw [psig_cons]
      split
      · simp
      · split
        · simp
        · simp

theorem parse_exponent_ne_out (s : List Char) : parse_exponent s ≠ .out := by
  cases s with
  | nil => simp [pe_nil]
  | cons c rest =>
      rw [pe_cons]
      split
      · rcases parse_sign_shape rest with h | h <;> rw [h] <;>
          cases hd : parse_digits rest with
        | ok a r => simp [hd]
        | fail => simp [hd]
        | panic => simp [hd]
        | out => exact absurd hd (parse_digits_ne_out _)
      · simp

theorem parse_exponent_length {s : List Char} {a : Int} {r : List Char}
    (h : parse_exponent s = .ok a r) : r.length ≤ s.length := by
  cases s with
  | nil =>
      rw [pe_nil] at h
      cases h
      simp
  | cons c rest =>
      rw [pe_cons] at h
      split at h
      · rcases parse_sign_shape rest with hs | hs <;> simp only [hs] at h <;>
          cases hd : parse_digits rest <;> simp only [hd] at h <;> simp at h
        all_goals
          obtain ⟨h1, h2⟩ := h
          subst h2
          have := parse_digits_length hd
          simp only [List.length_cons]
          omega
      · cases h
        simp

theorem parse_exponent_none (s : List Char)
    (h : ∀ c ∈ s.head?, ¬ c = 'e' ∧ ¬ c = 'E') :
    parse_exponent s = .ok 0 s := by
  cases s with
  | nil => exact pe_nil
  | cons c rest =>
      have := h c (by simp)
      rw [pe_cons, if_neg (by tauto)]

theorem parse_exponent_spec (c : Char) (hc : c = 'e' ∨ c = 'E')
    (es rest : List Char) (h0 : es ≠ [])
    (h1 : ∀ ch ∈ es, isAsciiDigit ch = true)
    (h2 : ∀ ch ∈ rest.head?, isNumeric ch = false)
    (h3 : digitsToNat es < 2147483648) :
    parse_exponent (c :: (es ++ rest)) = .ok ((digitsToNat es : Int)) rest := by
  cases es with
  | nil => exact absurd rfl h0
  | cons e1 es' =>
      have he := h1 e1 (by simp)
      have hsig : parse_sign ((e1 :: es') ++ rest) = .ok 1 ((e1 :: es') ++ rest) := by
        rw [List.cons_append]
        exact psig_other e1 _ (asciiDigit_ne he '+' (by decide))
          (asciiDigit_ne he '-' (by decide))
      have hds := parse_digits_spec (e1 :: es') rest h0 h1 h2 (by omega)
      rw [pe_cons, if_pos hc, hsig]
      show (match parse_digits ((e1 :: es') ++ rest) with
        | PRes.ok num r2 => PRes.ok (wrap_i32 (1 * u32_to_i32 num)) r2
        | PRes.fail => PRes.fail
        | PRes.panic => PRes.panic
        | PRes.out => PRes.out) = PRes.ok ((digitsToNat (e1 :: es') : Int)) rest
      rw [hds]
      show PRes.ok (wrap_i32 (1 * u32_to_i32 (digitsToNat (e1 :: es')))) rest =
        PRes.ok ((digitsToNat (e1 :: es') : Int)) rest
      rw [u32_to_i32_eq h3, one_mul,
        wrap_i32_eq (by omega) (by exact_mod_cast h3)]

/-! Lemmas about parse_number. -/

theorem parse_number_ne_out (s : List Char) : parse_number s ≠ .out := by
  cases hi : parse_integer s with
  | ok i r1 =>
      cases hf : parse_fraction r1 with
      | ok fr r2 =>
          cases he : parse_exponent r2 with
          | ok ex r3 => simp [parse_number, hi, hf, he]
          | fail => simp [parse_number, hi, hf, he]
          | panic => simp [parse_number, hi, hf, he]
          | out => exact absurd he (parse_exponent_ne_out _)
      | fail => simp [parse_number, hi, hf]
      | panic => simp [parse_number, hi, hf]
      | out => exact absurd hf (parse_fraction_ne_out _)
  | fail => simp [parse_number, hi]
  | panic => simp [parse_number, hi]
  | out => exact absurd hi (parse_integer_ne_out _)

theorem parse_number_length {s : List Char} {v : Value} {r : List Char}
    (h : parse_number s = .ok v r) : r.length < s.length := by
  cases hi : parse_integer s with
  | fail => simp [parse_number, hi] at h
  | panic => simp [parse_number, hi] at h
  | out => simp [parse_number, hi] at h
  | ok i r1 =>
      cases hf : parse_fraction r1 with
      | fail => simp [parse_number, hi, hf] at h
      | panic => simp [parse_number, hi, hf] at h
      | out => simp [parse_number, hi, hf] at h
      | ok fr r2 =>
          cases he : parse_exponent r2 with
          | fail => simp [parse_number, hi, hf, he] at h
          | panic => simp [parse_number, hi, hf, he] at h
          | out => simp [parse_number, hi, hf, he] at h
          | ok ex r3 =>
              simp only [parse_number, hi, hf, he] at h
              simp at h
              obtain ⟨h1, h2⟩ := h
              subst h2
              have l1 := parse_integer_length hi
              have l2 := parse_fraction_length hf
              have l3 := parse_exponent_length he
              omega

/-! Lemmas about the literal parsers. -/

theorem parse_true_ne_out (s : List Char) : parse_true s ≠ .out := by
  rw [parse_true.eq_def]
  split
  · split <;> simp
  · simp

theorem parse_false_ne_out (s : List Char) : parse_false s ≠ .out := by
  rw [parse_false.eq_def]
  split
  · split <;> simp
  · simp

theorem parse_null_ne_out (s : List Char) : parse_null s ≠ .out := by
  rw [parse_null.eq_def]
  split
  · split <;> simp
  · simp

theorem parse_true_length {s : List Char} {v : Value} {r : List Char}
    (h : parse_true s = .ok v r) : r.length < s.length := by
  rw [parse_true.eq_def] at h
  split at h
  · split at h
    · cases h
      simp only [List.length_cons]
      omega
    · simp at h
  · simp at h

theorem parse_false_length {s : List Char} {v : Value} {r : List Char}
    (h : parse_false s = .ok v r) : r.length < s.length := by
  rw [parse_false.eq_def] at h
  split at h
  · split at h
    · cases h
      simp only [List.length_cons]
      omega
    · simp at h
  · simp at h

theorem parse_null_length {s : List Char} {v : Value} {r : List Char}
    (h : parse_null s = .ok v r) : r.length < s.length := by
  rw [parse_null.eq_def] at h
  split at h
  · split at h
    · cases h
      simp only [List.length_cons]
      omega
    · simp at h
  · simp at h

theorem parse_true_spec (rest : List Char) :
    parse_true ('t' :: 'r' :: 'u' :: 'e' :: rest) = .ok Value.true rest := by
  rw [parse_true.eq_def]
  simp

/-! Step equations for the mutual recursive-descent parsers at successor
fuel. -/

theorem pel_succ (f : Nat) (s : List Char) :
    parse_element (f + 1) s =
      (match parse_value f (skip_whitespace s) with
        | .ok v r => .ok v (skip_whitespace r)
        | .fail => .fail
        | .panic => .panic
        | .out => .out) := by
  rw [parse_element.eq_def]

theorem pv_succ_nil (f : Nat) : parse_value (f + 1) [] = .fail := by
  rw [parse_value.eq_def]

theorem pv_succ_cons (f : Nat) (c : Char) (rest : List Char) :
    parse_value (f + 1) (c :: rest) =
      (if c = '"' then
        match parse_string (c :: rest) with
        | .ok str r => .ok (.str (String.mk str)) r
        | .fail => .fail
        | .panic => .panic
        | .out => .out
      else if isNumeric c ∨ c = '-' then parse_number (c :: rest)
      else if c = '{' then parse_object f (c :: rest)
      else if c = '[' then parse_array f (c :: rest)
      else if c = 't' then parse_true (c :: rest)
      else if c = 'f' then parse_false (c :: rest)
      else if c = 'n' then parse_null (c :: rest)
      else .fail) := by
  rw [parse_value.eq_def]

theorem po_succ_nil (f : Nat) : parse_object (f + 1) [] = .fail := by
  rw [parse_object.eq_def]

theorem po_succ_cons (f : Nat) (c : Char) (rest : List Char) :
    parse_object (f + 1) (c :: rest) =
      (if c = '{' then parse_object_loop f [] (skip_whitespace rest)
        else .panic) := by
  rw [parse_object.eq_def]

theorem pol_succ_nil (f : Nat) (m : List (String × Value)) :
    parse_object_loop (f + 1) m [] = .fail := by
  rw [parse_object_loop.eq_def]

theorem pol_succ_cons (f : Nat) (m : List (String × Value)) (c : Char)
    (rest : List Char) :
    parse_object_loop (f + 1) m (c :: rest) =
      (if c = '}' then .ok (.object m) rest
        else
          match parse_member f (if c = ',' then rest else c :: rest) with
          | .ok kv r =>
              parse_object_loop f (assocInsert kv.1 kv.2 m) (skip_whitespace r)
          | .fail => .fail
          | .panic => .panic
          | .out => .out) := by
  rw [parse_object_loop.eq_def]

theorem pm_succ (f : Nat) (s : List Char) :
    parse_member (f + 1) s =
      (match parse_string (skip_whitespace s) with
        | .ok str r =>
            match skip_whitespace r with
            | [] => .fail
            | c :: r2 =>
                if c = ':' then
                  match parse_element f (skip_whitespace r2) with
                  | .ok v r3 => .ok (String.mk str, v) r3
                  | .fail => .fail
                  | .panic => .panic
                  | .out => .out
                else .fail
        | .fail => .fail
        | .panic => .panic
        | .out => .out) := by
  rw [parse_member.eq_def]

theorem pa_succ_nil (f : Nat) : parse_array (f + 1) [] = .fail := by
  rw [parse_array.eq_def]

theorem pa_succ_cons (f : Nat) (c : Char) (rest : List Char) :
    parse_array (f + 1) (c :: rest) =
      (if c = '[' then parse_array_loop f [] (skip_whitespace rest)
        else .fail) := by
  rw [parse_array.eq_def]

theorem pal_succ_nil (f : Nat) (a : List Value) :
    parse_array_loop (f + 1) a [] = .fail := by
  rw [parse_array_loop.eq_def]

theorem pal_succ_cons (f : Nat) (a : List Value) (c : Char)
    (rest : List Char) :
    parse_array_loop (f + 1) a (c :: rest) =
      (if c = ']' then .ok (.array a) rest
        else
          match parse_element f (if c = ',' then rest else c :: rest) with
          | .ok v r => parse_array_loop f (a ++ [v]) (skip_whitespace r)
          | .fail => .fail
          | .panic => .panic
          | .out => .out) := by
  rw [parse_array_loop.eq_def]

/-- Every successful sub-parse of the mutual group consumes at least one
character: the remaining input is strictly shorter.  This is the
cursor-progress invariant behind the termination argument. -/
theorem consume (f : Nat) :
    (∀ s v r, parse_element f s = .ok v r → r.length < s.length) ∧
    (∀ s v r, parse_value f s = .ok v r → r.length < s.length) ∧
    (∀ s v r, parse_object f s = .ok v r → r.length < s.length) ∧
    (∀ m s v r, parse_object_loop f m s = .ok v r → r.length < s.length) ∧
    (∀ s p r, parse_member f s = .ok p r → r.length < s.length) ∧
    (∀ s v r, parse_array f s = .ok v r → r.length < s.length) ∧
    (∀ a s v r, parse_array_loop f a s = .ok v r → r.length < s.length) := by
  induction f with
  | zero =>
      refine ⟨?_, ?_, ?_, ?_, ?_, ?_, ?_⟩
      · intro s v r h
        rw [parse_element.eq_def] at h
        simp at h
      · intro s v r h
        rw [parse_value.eq_def] at h
        simp at h
      · intro s v r h
        rw [parse_object.eq_def] at h
        simp at h
      · intro m s v r h
        rw [parse_object_loop.eq_def] at h
        simp at h
      · intro s p r h
        rw [parse_member.eq_def] at h
        simp at h
      · intro s v r h
        rw [parse_array.eq_def] at h
        simp at h
      · intro a s v r h
        rw [parse_array_loop.eq_def] at h
        simp at h
  | succ f ih =>
      obtain ⟨ihE, ihV, ihO, ihL, ihM, ihA, ihAL⟩ := ih
      refine ⟨?_, ?_, ?_, ?_, ?_, ?_, ?_⟩
      · -- parse_element
        intro s v r h
        rw [pel_succ] at h
        cases hv : parse_value f (skip_whitespace s) with
        | ok v0 r0 =>
            rw [hv] at h
            simp at h
            obtain ⟨hv1, hr⟩ := h
            subst hr
            have d1 := ihV _ _ _ hv
            have d2 := skip_whitespace_length s
            have d3 := skip_whitespace_length r0
            omega
        | fail => rw [hv] at h; simp at h
        | panic => rw [hv] at h; simp at h
        | out => rw [hv] at h; simp at h
      · -- parse_value
        intro s v r h
        cases s with
        | nil => rw [pv_succ_nil] at h; simp at h
        | cons c rest =>
            rw [pv_succ_cons] at h
            split at h
            · cases hs : parse_string (c :: rest) with
              | ok str r0 =>
                  rw [hs] at h
                  simp at h
                  obtain ⟨hv1, hr⟩ := h
                  subst hr
                  exact parse_string_length hs
              | fail => rw [hs] at h; simp at h
              | panic => rw [hs] at h; simp at h
              | out => rw [hs] at h; simp at h
            · split at h
              · exact parse_number_length h
              · split at h
                · exact ihO _ _ _ h
                · split at h
                  · exact ihA _ _ _ h
                  · split at h
                    · exact parse_true_length h
                    · split at h
                      · exact parse_false_length h
                      · split at h
                        · exact parse_null_length h
                        · simp at h
      · -- parse_object
        intro s v r h
        cases s with
        | nil => rw [po_succ_nil] at h; simp at h
        | cons c rest =>
            rw [po_succ_cons] at h
            split at h
            · have d1 := ihL _ _ _ _ h
              have d2 := skip_whitespace_length rest
              simp only [List.length_cons]
              omega
            · simp at h
      · -- parse_object_loop
        intro m s v r h
        cases s with
        | nil => rw [pol_succ_nil] at h; simp at h
        | cons c rest =>
            rw [pol_succ_cons] at h
            split at h
            · cases h
              simp
            · cases hm : parse_member f (if c = ',' then rest else c :: rest) with
              | ok kv r0 =>
                  rw [hm] at h
                  have h' : parse_object_loop f (assocInsert kv.1 kv.2 m)
                      (skip_whitespace r0) = .ok v r := h
                  have d1 := ihL _ _ _ _ h'
                  have d2 := ihM _ _ _ hm
                  have d3 := skip_whitespace_length r0
                  have d4 : (if c = ',' then rest else c :: rest).length ≤
                      rest.length + 1 := by
                    split <;> simp
                  simp only [List.length_cons]
                  omega
              | fail =>
                  rw [hm] at h
                  have h' : (PRes.fail : PRes Value) = .ok v r := h
                  simp at h'
              | panic =>
                  rw [hm] at h
                  have h' : (PRes.panic : PRes Value) = .ok v r := h
                  simp at h'
              | out =>
                  rw [hm] at h
                  have h' : (PRes.out : PRes Value) = .ok v r := h
                  simp at h'
      · -- parse_member
        intro s p r h
        rw [pm_succ] at h
        cases hs : parse_string (skip_whitespace s) with
        | fail => rw [hs] at h; simp at h
        | panic => rw [hs] at h; simp at h
        | out => rw [hs] at h; simp at h
        | ok str r0 =>
            rw [hs] at h
            have h' : (match skip_whitespace r0 with
              | [] => PRes.fail
              | c :: r2 =>
                  if c = ':' then
                    match parse_element f (skip_whitespace r2) with
                    | .ok v r3 => PRes.ok (String.mk str, v) r3
                    | .fail => .fail
                    | .panic => .panic
                    | .out => .out
                  else .fail) = .ok p r := h
            cases hw : skip_whitespace r0 with
            | nil => rw [hw] at h'; simp at h'
            | cons c r2 =>
                rw [hw] at h'
                have h2 : (if c = ':' then
                    match parse_element f (skip_whitespace r2) with
                    | .ok v r3 => PRes.ok (String.mk str, v) r3
                    | .fail => .fail
                    | .panic => .panic
                    | .out => .out
                  else PRes.fail) = .ok p r := h'
                split at h2
                · cases he : parse_element f (skip_whitespace r2) with
                  | ok v0 r3 =>
                      rw [he] at h2
                      simp at h2
                      obtain ⟨hp, hr⟩ := h2
                      subst hr
                      have d1 := ihE _ _ _ he
                      have d2 := skip_whitespace_length r2
                      have d3 : (skip_whitespace r0).length = r2.length + 1 := by
                        rw [hw]
                        simp
                      have d4 := skip_whitespace_length r0
                      have d5 := parse_string_length hs
                      have d6 := skip_whitespace_length s
                      omega
                  | fail => rw [he] at h2; simp at h2
                  | panic => rw [he] at h2; simp at h2
                  | out => rw [he] at h2; simp at h2
                · simp at h2
      · -- parse_array
        intro s v r h
        cases s with
        | nil => rw [pa_succ_nil] at h; simp at h
        | cons c rest =>
            rw [pa_succ_cons] at h
            split at h
            · have d1 := ihAL _ _ _ _ h
              have d2 := skip_whitespace_length rest
              simp only [List.length_cons]
              omega
            · simp at h
      · -- parse_array_loop
        intro a s v r h
        cases s with
        | nil => rw [pal_succ_nil] at h; simp at h
        | cons c rest =>
            rw [pal_succ_cons] at h
            split at h
            · cases h
              simp
            · cases he : parse_element f (if c = ',' then rest else c :: rest) with
              | ok v0 r0 =>
                  rw [he] at h
                  have h' : parse_array_loop f (a ++ [v0])
                      (skip_whitespace r0) = .ok v r := h
                  have d1 := ihAL _ _ _ _ h'
                  have d2 := ihE _ _ _ he
                  have d3 := skip_whitespace_length r0
                  have d4 : (if c = ',' then rest else c :: rest).length ≤
                      rest.length + 1 := by
                    split <;> simp
                  simp only [List.length_cons]
                  omega
              | fail =>
                  rw [he] at h
                  have h' : (PRes.fail : PRes Value) = .ok v r := h
                  simp at h'
              | panic =>
                  rw [he] at h
                  have h' : (PRes.panic : PRes Value) = .ok v r := h
                  simp at h'
              | out =>
                  rw [he] at h
                  have h' : (PRes.out : PRes Value) = .ok v r := h
                  simp at h'

/-- Fuel sufficiency: with fuel at least six times the remaining input
length plus a per-production constant, no parser of the mutual group ever
exhausts its fuel.  Together with consume, this is the shallow form of the
termination argument: the cursor is forward-only and every production
consumes at least one character or fails. -/
theorem no_out (f : Nat) :
    (∀ s, 6 * s.length + 6 ≤ f → parse_element f s ≠ .out) ∧
    (∀ s, 6 * s.length + 5 ≤ f → parse_value f s ≠ .out) ∧
    (∀ s, 6 * s.length + 4 ≤ f → parse_object f s ≠ .out) ∧
    (∀ m s, 6 * s.length + 4 ≤ f → parse_object_loop f m s ≠ .out) ∧
    (∀ s, 6 * s.length + 3 ≤ f → parse_member f s ≠ .out) ∧
    (∀ s, 6 * s.length + 2 ≤ f → parse_array f s ≠ .out) ∧
    (∀ a s, 6 * s.length + 7 ≤ f → parse_array_loop f a s ≠ .out) := by
  induction f with
  | zero =>
      refine ⟨?_, ?_, ?_, ?_, ?_, ?_, ?_⟩
      · intro s hb
        omega
      · intro s hb
        omega
      · intro s hb
        omega
      · intro m s hb
        omega
      · intro s hb
        omega
      · intro s hb
        omega
      · intro a s hb
        omega
  | succ f ih =>
      obtain ⟨ihE, ihV, ihO, ihL, ihM, ihA, ihAL⟩ := ih
      refine ⟨?_, ?_, ?_, ?_, ?_, ?_, ?_⟩
      · -- parse_element
        intro s hb
        rw [pel_succ]
        cases hv : parse_value f (skip_whitespace s) with
        | ok v r => simp
        | fail => simp
        | panic => simp
        | out =>
            refine absurd hv (ihV _ ?_)
            have := skip_whitespace_length s
            omega
      · -- parse_value
        intro s hb
        cases s with
        | nil =>
            rw [pv_succ_nil]
            simp
        | cons c rest =>
            rw [pv_succ_cons]
            split
            · cases hs : parse_string (c :: rest) with
              | ok str r => simp [hs]
              | fail => simp [hs]
              | panic => simp [hs]
              | out => exact absurd hs (parse_string_ne_out _)
            · split
              · exact parse_number_ne_out _
              · split
                · refine ihO _ ?_
                  simp only [List.length_cons] at hb ⊢
                  omega
                · split
                  · refine ihA _ ?_
                    simp only [List.length_cons] at hb ⊢
                    omega
                  · split
                    · exact parse_true_ne_out _
                    · split
                      · exact parse_false_ne_out _
                      · split
                        · exact parse_null_ne_out _
                        · simp
      · -- parse_object
        intro s hb
        cases s with
        | nil =>
            rw [po_succ_nil]
            simp
        | cons c rest =>
            rw [po_succ_cons]
            split
            · refine ihL _ _ ?_
              have := skip_whitespace_length rest
              simp only [List.length_cons] at hb
              omega
            · simp
      · -- parse_object_loop
        intro m s hb
        cases s with
        | nil =>
            rw [pol_succ_nil]
            simp
        | cons c rest =>
            rw [pol_succ_cons]
            split
            · simp
            · cases hm : parse_member f (if c = ',' then rest else c :: rest) with
              | ok kv r0 =>
                  show parse_object_loop f (assocInsert kv.1 kv.2 m)
                    (skip_whitespace r0) ≠ .out
                  refine ihL _ _ ?_
                  have d2 := (consume f).2.2.2.2.1 _ _ _ hm
                  have d3 := skip_whitespace_length r0
                  have d4 : (if c = ',' then rest else c :: rest).length ≤
                      rest.length + 1 := by
                    split <;> simp
                  simp only [List.length_cons] at hb
                  omega
              | fail => simp
              | panic => simp
              | out =>
                  refine absurd hm (ihM _ ?_)
                  have d4 : (if c = ',' then rest else c :: rest).length ≤
                      rest.length + 1 := by
                    split <;> simp
                  simp only [List.length_cons] at hb
                  omega
      · -- parse_member
        intro s hb
        rw [pm_succ]
        cases hs : parse_string (skip_whitespace s) with
        | fail => simp [hs]
        | panic => simp [hs]
        | out => exact absurd hs (parse_string_ne_out _)
        | ok str r0 =>
            show (match skip_whitespace r0 with
              | [] => PRes.fail
              | c :: r2 =>
                  if c = ':' then
                    match parse_element f (skip_whitespace r2) with
                    | .ok v r3 => PRes.ok (String.mk str, v) r3
                    | .fail => .fail
                    | .panic => .panic
                    | .out => .out
                  else .fail) ≠ PRes.out
            cases hw : skip_whitespace r0 with
            | nil => simp
            | cons c r2 =>
                show (if c = ':' then
                    match parse_element f (skip_whitespace r2) with
                    | .ok v r3 => PRes.ok (String.mk str, v) r3
                    | .fail => .fail
                    | .panic => .panic
                    | .out => .out
                  else PRes.fail) ≠ PRes.out
                split
                · cases he : parse_element f (skip_whitespace r2) with
                  | ok v0 r3 => simp [he]
                  | fail => simp [he]
                  | panic => simp [he]
                  | out =>
                      refine absurd he (ihE _ ?_)
                      have d1 := parse_string_length hs
                      have d2 := skip_whitespace_length s
                      have d3 : (skip_whitespace r0).length = r2.length + 1 := by
                        rw [hw]
                        simp
                      have d4 := skip_whitespace_length r0
                      have d5 := skip_whitespace_length r2
                      omega
                · simp
      · -- parse_array
        intro s hb
        cases s with
        | nil =>
            rw [pa_succ_nil]
            simp
        | cons c rest =>
            rw [pa_succ_cons]
            split
            · refine ihAL _ _ ?_
              have := skip_whitespace_length rest
              simp only [List.length_cons] at hb
              omega
            · simp
      · -- parse_array_loop
        intro a s hb
        cases s with
        | nil =>
            rw [pal_succ_nil]
            simp
        | cons c rest =>
            rw [pal_succ_cons]
            split
            · simp
            · cases he : parse_element f (if c = ',' then rest else c :: rest) with
              | ok v0 r0 =>
                  show parse_array_loop f (a ++ [v0]) (skip_whitespace r0) ≠ .out
                  refine ihAL _ _ ?_
                  have d2 := (consume f).1 _ _ _ he
                  have d3 := skip_whitespace_length r0
                  have d4 : (if c = ',' then rest else c :: rest).length ≤
                      rest.length + 1 := by
                    split <;> simp
                  simp only [List.length_cons] at hb
                  omega
              | fail => simp
              | panic => simp
              | out =>
                  refine absurd he (ihE _ ?_)
                  have d4 : (if c = ',' then rest else c :: rest).length ≤
                      rest.length + 1 := by
                    split <;> simp
                  simp only [List.length_cons] at hb
                  omega

/-! Composition lemmas for parse_number and parse_value on number input. -/

theorem pn_ok_ok_ok {s : List Char} {i : Int} {r1 : List Char} {fr : Rat}
    {r2 : List Char} {ex : Int} {r3 : List Char}
    (hi : parse_integer s = .ok i r1) (hf : parse_fraction r1 = .ok fr r2)
    (he : parse_exponent r2 = .ok ex r3) :
    parse_number s = .ok (.number (((i : Rat) + fr) * 10 ^ ex)) r3 := by
  unfold parse_number
  rw [hi]
  show (match parse_fraction r1 with
    | PRes.ok fr r2 =>
        match parse_exponent r2 with
        | PRes.ok ex r3 => PRes.ok (Value.number (((i : Rat) + fr) * 10 ^ ex)) r3
        | PRes.fail => PRes.fail
        | PRes.panic => PRes.panic
        | PRes.out => PRes.out
    | PRes.fail => PRes.fail
    | PRes.panic => PRes.panic
    | PRes.out => PRes.out) = PRes.ok (Value.number (((i : Rat) + fr) * 10 ^ ex)) r3
  rw [hf]
  show (match parse_exponent r2 with
    | PRes.ok ex r3 => PRes.ok (Value.number (((i : Rat) + fr) * 10 ^ ex)) r3
    | PRes.fail => PRes.fail
    | PRes.panic => PRes.panic
    | PRes.out => PRes.out) = PRes.ok (Value.number (((i : Rat) + fr) * 10 ^ ex)) r3
  rw [he]

theorem parse_integer_spec_sgn (sgn : Bool) (ds rest : List Char)
    (h0 : ds ≠ []) (h1 : ∀ c ∈ ds, isAsciiDigit c = true)
    (h2 : ∀ c ∈ rest.head?, isNumeric c = false)
    (h3 : digitsToNat ds < 2147483648) :
    parse_integer ((if sgn then ['-'] else []) ++ ds ++ rest) =
      .ok ((if sgn then -(digitsToNat ds : Int) else (digitsToNat ds : Int)))
        rest := by
  cases sgn with
  | false =>
      rw [if_neg (by simp), if_neg (by simp), List.nil_append]
      exact parse_integer_spec_pos ds rest h0 h1 h2 h3
  | true =>
      rw [if_pos rfl, if_pos rfl]
      show parse_integer ('-' :: (ds ++ rest)) = _
      exact parse_integer_spec_neg ds rest h0 h1 h2 h3

theorem parse_number_spec (sgn : Bool) (ds : List Char)
    (fs es : Option (List Char)) (rest : List Char)
    (hds0 : ds ≠ []) (hds1 : ∀ c ∈ ds, isAsciiDigit c = true)
    (hds2 : digitsToNat ds < 2147483648)
    (hfs : ∀ fl ∈ fs, fl ≠ [] ∧ ∀ c ∈ fl, isAsciiDigit c = true)
    (hes : ∀ el ∈ es, el ≠ [] ∧ (∀ c ∈ el, isAsciiDigit c = true) ∧
      digitsToNat el < 2147483648)
    (hrest : ∀ c ∈ rest.head?,
      isNumeric c = false ∧ ¬ c = '.' ∧ ¬ c = 'e' ∧ ¬ c = 'E') :
    parse_number (numInput sgn ds fs es ++ rest) =
      .ok (.number (numValue sgn ds fs es)) rest := by
  have hrn : ∀ c ∈ rest.head?, isNumeric c = false :=
    fun c hc => (hrest c hc).1
  rcases fs with _ | f <;> rcases es with _ | e
  · -- no fraction, no exponent
    have hi := parse_integer_spec_sgn sgn ds rest hds0 hds1 hrn hds2
    have hf := parse_fraction_none rest (fun c hc => (hrest c hc).2.1)
    have he := parse_exponent_none rest
      (fun c hc => ⟨(hrest c hc).2.2.1, (hrest c hc).2.2.2⟩)
    have := pn_ok_ok_ok hi hf he
    simp only [numInput, numValue, List.append_nil, List.append_assoc]
    simp only [List.append_nil, List.append_assoc] at this
    simpa using this
  · -- exponent only
    obtain ⟨he0, he1, he2⟩ := hes e (by simp)
    have hi := parse_integer_spec_sgn sgn ds ('e' :: (e ++ rest)) hds0 hds1
      (by intro c hc; simp at hc; subst hc; decide) hds2
    have hf := parse_fraction_none ('e' :: (e ++ rest))
      (by intro c hc; simp at hc; subst hc; decide)
    have he := parse_exponent_spec 'e' (Or.inl rfl) e rest he0 he1 hrn he2
    have := pn_ok_ok_ok hi hf he
    simp only [numInput, numValue, List.append_nil, List.append_assoc]
    simp only [List.append_nil, List.append_assoc, List.cons_append] at this ⊢
    simpa using this
  · -- fraction only
    obtain ⟨hf0, hf1⟩ := hfs f (by simp)
    have hi := parse_integer_spec_sgn sgn ds ('.' :: (f ++ rest)) hds0 hds1
      (by intro c hc; simp at hc; subst hc; decide) hds2
    have hf := parse_fraction_spec f rest hf0 hf1 hrn
    have he := parse_exponent_none rest
      (fun c hc => ⟨(hrest c hc).2.2.1, (hrest c hc).2.2.2⟩)
    have := pn_ok_ok_ok hi hf he
    simp only [numInput, numValue, List.append_nil, List.append_assoc]
    simp only [List.append_nil, List.append_assoc, List.cons_append] at this ⊢
    simpa using this
  · -- fraction and exponent
    obtain ⟨hf0, hf1⟩ := hfs f (by simp)
    obtain ⟨he0, he1, he2⟩ := hes e (by simp)
    have hi := parse_integer_spec_sgn sgn ds ('.' :: (f ++ ('e' :: (e ++ rest))))
      hds0 hds1 (by intro c hc; simp at hc; subst hc; decide) hds2
    have hf := parse_fraction_spec f ('e' :: (e ++ rest)) hf0 hf1
      (by intro c hc; simp at hc; subst hc; decide)
    have he := parse_exponent_spec 'e' (Or.inl rfl) e rest he0 he1 hrn he2
    have := pn_ok_ok_ok hi hf he
    simp only [numInput, numValue, List.append_nil, List.append_assoc]
    simp only [List.append_nil, List.append_assoc, List.cons_append] at this ⊢
    simpa using this

/-- On input whose first character is numeric or a minus, parse_value
dispatches to parse_number. -/
theorem pv_number (f : Nat) (c : Char) (rest : List Char) (h1 : c ≠ '"')
    (h2 : isNumeric c = true ∨ c = '-') :
    parse_value (f + 1) (c :: rest) = parse_number (c :: rest) := by
  rw [pv_succ_cons, if_neg h1, if_pos h2]

/-! Helpers relating the top-level parse to parse_element. -/

theorem parse_of_ok {input : String} {v : Value} (r : List Char)
    (h : parse_element (6 * input.toList.length + 6) input.toList = .ok v r) :
    parse input = .ok v := by
  unfold parse
  rw [h]

theorem parse_of_fail {input : String}
    (h : parse_element (6 * input.toList.length + 6) input.toList = .fail) :
    parse input = .fail := by
  unfold parse
  rw [h]

/-- parse on a pure number literal: the element walk around
parse_number_spec. -/
theorem parse_numInput (sgn : Bool) (ds : List Char)
    (fs es : Option (List Char))
    (hds0 : ds ≠ []) (hds1 : ∀ c ∈ ds, isAsciiDigit c = true)
    (hds2 : digitsToNat ds < 2147483648)
    (hfs : ∀ fl ∈ fs, fl ≠ [] ∧ ∀ c ∈ fl, isAsciiDigit c = true)
    (hes : ∀ el ∈ es, el ≠ [] ∧ (∀ c ∈ el, isAsciiDigit c = true) ∧
      digitsToNat el < 2147483648) :
    parse (String.mk (numInput sgn ds fs es)) =
      .ok (.number (numValue sgn ds fs es)) := by
  have hnum := parse_number_spec sgn ds fs es [] hds0 hds1 hds2 hfs hes
    (by simp)
  rw [List.append_nil] at hnum
  obtain ⟨c, t, hct, hc⟩ : ∃ c t, numInput sgn ds fs es = c :: t ∧
      (isAsciiDigit c = true ∨ c = '-') := by
    cases sgn with
    | false =>
        cases ds with
        | nil => exact absurd rfl hds0
        | cons d ds' =>
            simp only [numInput, Bool.false_eq_true, if_false, List.nil_append,
              List.cons_append, List.append_assoc]
            exact ⟨d, _, rfl, Or.inl (hds1 d (by simp))⟩
    | true =>
        simp only [numInput, if_true, List.cons_append, List.append_assoc]
        exact ⟨'-', _, rfl, Or.inr rfl⟩
  have hws : isWhitespace c = false := by
    rcases hc with h | h
    · exact asciiDigit_not_ws h
    · subst h
      decide
  have hq : c ≠ '"' := by
    rcases hc with h | h
    · exact asciiDigit_ne h '"' (by decide)
    · subst h
      decide
  have hdisp : isNumeric c = true ∨ c = '-' := by
    rcases hc with h | h
    · exact Or.inl (asciiDigit_isNumeric h)
    · exact Or.inr h
  apply parse_of_ok []
  have hlist : (String.mk (numInput sgn ds fs es)).toList =
      numInput sgn ds fs es := rfl
  rw [hlist, hct]
  rw [show 6 * (c :: t).length + 6 = ((6 * (c :: t).length + 4) + 1) + 1 from rfl]
  rw [pel_succ, skip_whitespace_cons t hws, pv_number _ c t hq hdisp, ← hct,
    hnum]
  rfl

/-- parse_element on a single-digit number followed by a stopper: the
element walk for digits inside arrays and objects. -/
theorem pe_digit (f : Nat) (d : Char) (rest : List Char)
    (hd : isAsciiDigit d = true)
    (hrest : ∀ c ∈ rest.head?, isNumeric c = false ∧ ¬ c = '.' ∧
      ¬ c = 'e' ∧ ¬ c = 'E' ∧ isWhitespace c = false) :
    parse_element (f + 2) (d :: rest) =
      .ok (.number (numValue false [d] none none)) rest := by
  have hbound : digitsToNat [d] < 2147483648 := by
    have := asciiDigit_toNat hd
    simp only [digitsToNat, digits_val_cons, digits_val_nil]
    omega
  have hnum := parse_number_spec false [d] none none rest (by simp)
    (by simpa using hd) hbound (by simp) (by simp)
    (fun c hc => ⟨(hrest c hc).1, (hrest c hc).2.1, (hrest c hc).2.2.1,
      (hrest c hc).2.2.2.1⟩)
  have hin : numInput false [d] none none ++ rest = d :: rest := by
    simp [numInput]
  rw [hin] at hnum
  have hsw : skip_whitespace rest = rest := by
    cases rest with
    | nil => rfl
    | cons c r => exact skip_whitespace_cons r (hrest c (by simp)).2.2.2.2
  rw [show f + 2 = (f + 1) + 1 from rfl, pel_succ,
    skip_whitespace_cons rest (asciiDigit_not_ws hd),
    pv_number f d rest (asciiDigit_ne hd '"' (by decide))
      (Or.inl (asciiDigit_isNumeric hd)), hnum]
  show PRes.ok (Value.number (numValue false [d] none none))
      (skip_whitespace rest) = _
  rw [hsw]

/-- parse_member on a quoted key, a colon and a one-digit value. -/
theorem pm_key_digit (f : Nat) (kl : List Char)
    (hk : ∀ c ∈ kl, c ≠ '"' ∧ c ≠ '\\') (d : Char)
    (hd : isAsciiDigit d = true) (rest : List Char)
    (hrest : ∀ c ∈ rest.head?, isNumeric c = false ∧ ¬ c = '.' ∧
      ¬ c = 'e' ∧ ¬ c = 'E' ∧ isWhitespace c = false) :
    parse_member (f + 3) ('"' :: (kl ++ '"' :: ':' :: d :: rest)) =
      .ok (String.mk kl, .number (numValue false [d] none none)) rest := by
  rw [show f + 3 = (f + 2) + 1 from rfl, pm_succ,
    skip_whitespace_cons _ (by decide),
    parse_string_key kl _ hk]
  show (match skip_whitespace (':' :: d :: rest) with
    | [] => PRes.fail
    | c :: r2 =>
        if c = ':' then
          match parse_element (f + 2) (skip_whitespace r2) with
          | PRes.ok v r3 => PRes.ok (String.mk kl, v) r3
          | PRes.fail => PRes.fail
          | PRes.panic => PRes.panic
          | PRes.out => PRes.out
        else PRes.fail) = _
  rw [skip_whitespace_cons _ (by decide)]
  show (if ':' = ':' then
      match parse_element (f + 2) (skip_whitespace (d :: rest)) with
      | PRes.ok v r3 => PRes.ok (String.mk kl, v) r3
      | PRes.fail => PRes.fail
      | PRes.panic => PRes.panic
      | PRes.out => PRes.out
    else PRes.fail) = _
  rw [if_pos rfl, skip_whitespace_cons _ (asciiDigit_not_ws hd),
    pe_digit f d rest hd hrest]

/-! Dispatch and loop-step lemmas used to walk concrete and key-generic
object/array inputs. -/

theorem ps_quote (s : List Char) :
    parse_string ('"' :: s) = parse_string_loop s := by
  rw [parse_string.eq_def]
  simp

theorem pv_string (f : Nat) (rest : List Char) :
    parse_value (f + 1) ('"' :: rest) =
      (match parse_string ('"' :: rest) with
        | PRes.ok str r => PRes.ok (.str (String.mk str)) r
        | PRes.fail => PRes.fail
        | PRes.panic => PRes.panic
        | PRes.out => PRes.out) := by
  rw [pv_succ_cons, if_pos rfl]

theorem pv_object (f : Nat) (rest : List Char) :
    parse_value (f + 1) ('{' :: rest) = parse_object f ('{' :: rest) := by
  rw [pv_succ_cons, if_neg (by decide : ¬('{' = '"')),
    if_neg (by decide : ¬(isNumeric '{' = true ∨ '{' = '-')), if_pos rfl]

theorem pv_array (f : Nat) (rest : List Char) :
    parse_value (f + 1) ('[' :: rest) = parse_array f ('[' :: rest) := by
  rw [pv_succ_cons, if_neg (by decide : ¬('[' = '"')),
    if_neg (by decide : ¬(isNumeric '[' = true ∨ '[' = '-')),
    if_neg (by decide : ¬('[' = '{')), if_pos rfl]

theorem pv_true (f : Nat) (rest : List Char) :
    parse_value (f + 1) ('t' :: rest) = parse_true ('t' :: rest) := by
  rw [pv_succ_cons, if_neg (by decide : ¬('t' = '"')),
    if_neg (by decide : ¬(isNumeric 't' = true ∨ 't' = '-')),
    if_neg (by decide : ¬('t' = '{')), if_neg (by decide : ¬('t' = '[')),
    if_pos rfl]

theorem po_open (f : Nat) (rest : List Char) :
    parse_object (f + 1) ('{' :: rest) =
      parse_object_loop f [] (skip_whitespace rest) := by
  rw [po_succ_cons, if_pos rfl]

theorem pa_open (f : Nat) (rest : List Char) :
    parse_array (f + 1) ('[' :: rest) =
      parse_array_loop f [] (skip_whitespace rest) := by
  rw [pa_succ_cons, if_pos rfl]

theorem pol_close (f : Nat) (m : List (String × Value)) (rest : List Char) :
    parse_object_loop (f + 1) m ('}' :: rest) = .ok (.object m) rest := by
  rw [pol_succ_cons, if_pos rfl]

theorem pal_close (f : Nat) (a : List Value) (rest : List Char) :
    parse_array_loop (f + 1) a (']' :: rest) = .ok (.array a) rest := by
  rw [pal_succ_cons, if_pos rfl]

theorem assocInsert_same (k : String) (v v' : Value)
    (rest : List (String × Value)) :
    assocInsert k v ((k, v') :: rest) = (k, v) :: rest := by
  simp [assocInsert]

/-- One object-loop iteration on a member without a preceding comma. -/
theorem pol_member_step (f : Nat) (m : List (String × Value))
    (kl : List Char) (hk : ∀ c ∈ kl, c ≠ '"' ∧ c ≠ '\\') (d : Char)
    (hd : isAsciiDigit d = true) (rest : List Char)
    (hrest : ∀ c ∈ rest.head?, isNumeric c = false ∧ ¬ c = '.' ∧
      ¬ c = 'e' ∧ ¬ c = 'E' ∧ isWhitespace c = false) :
    parse_object_loop (f + 4) m ('"' :: (kl ++ '"' :: ':' :: d :: rest)) =
      parse_object_loop (f + 3)
        (assocInsert (String.mk kl) (.number (numValue false [d] none none)) m)
        (skip_whitespace rest) := by
  rw [show f + 4 = (f + 3) + 1 from rfl, pol_succ_cons,
    if_neg (by decide : ¬('"' = '}')), if_neg (by decide : ¬('"' = ',')),
    pm_key_digit f kl hk d hd rest hrest]

/-- One object-loop iteration on a comma followed by a member. -/
theorem pol_comma_member_step (f : Nat) (m : List (String × Value))
    (kl : List Char) (hk : ∀ c ∈ kl, c ≠ '"' ∧ c ≠ '\\') (d : Char)
    (hd : isAsciiDigit d = true) (rest : List Char)
    (hrest : ∀ c ∈ rest.head?, isNumeric c = false ∧ ¬ c = '.' ∧
      ¬ c = 'e' ∧ ¬ c = 'E' ∧ isWhitespace c = false) :
    parse_object_loop (f + 4) m
        (',' :: '"' :: (kl ++ '"' :: ':' :: d :: rest)) =
      parse_object_loop (f + 3)
        (assocInsert (String.mk kl) (.number (numValue false [d] none none)) m)
        (skip_whitespace rest) := by
  rw [show f + 4 = (f + 3) + 1 from rfl, pol_succ_cons,
    if_neg (by decide : ¬(',' = '}')), if_pos rfl,
    pm_key_digit f kl hk d hd rest hrest]

/-- One array-loop iteration on a one-digit element without a preceding
comma. -/
theorem pal_digit_step (f : Nat) (a : List Value) (d : Char)
    (hd : isAsciiDigit d = true) (rest : List Char)
    (hrest : ∀ c ∈ rest.head?, isNumeric c = false ∧ ¬ c = '.' ∧
      ¬ c = 'e' ∧ ¬ c = 'E' ∧ isWhitespace c = false) :
    parse_array_loop (f + 3) a (d :: rest) =
      parse_array_loop (f + 2)
        (a ++ [.number (numValue false [d] none none)])
        (skip_whitespace rest) := by
  rw [show f + 3 = (f + 2) + 1 from rfl, pal_succ_cons,
    if_neg (asciiDigit_ne hd ']' (by decide)),
    if_neg (asciiDigit_ne hd ',' (by decide)), pe_digit f d rest hd hrest]

/-- One array-loop iteration on a comma followed by a one-digit element. -/
theorem pal_comma_digit_step (f : Nat) (a : List Value) (d : Char)
    (hd : isAsciiDigit d = true) (rest : List Char)
    (hrest : ∀ c ∈ rest.head?, isNumeric c = false ∧ ¬ c = '.' ∧
      ¬ c = 'e' ∧ ¬ c = 'E' ∧ isWhitespace c = false) :
    parse_array_loop (f + 3) a (',' :: d :: rest) =
      parse_array_loop (f + 2)
        (a ++ [.number (numValue false [d] none none)])
        (skip_whitespace rest) := by
  rw [show f + 3 = (f + 2) + 1 from rfl, pal_succ_cons,
    if_neg (by decide : ¬(',' = ']')), if_pos rfl,
    pe_digit f d rest hd hrest]

/-! Auxiliary facts for the concrete walks. -/

theorem sw_nil : skip_whitespace [] = [] := rfl

theorem numValue_one : numValue false ['1'] none none = 1 := by
  simp [numValue, show digitsToNat ['1'] = 1 from rfl]

theorem numValue_two : numValue false ['2'] none none = 2 := by
  simp [numValue, show digitsToNat ['2'] = 2 from rfl]

theorem parse_arr1 : parse ("[1]") = .ok (.array [.number 1]) := by
  apply parse_of_ok []
  rw [show ("[1]").toList = ['[', '1', ']'] from rfl,
    show 6 * (['[', '1', ']'] : List Char).length + 6 = 23 + 1 from rfl,
    pel_succ, skip_whitespace_cons _ (by decide),
    show (23 : Nat) = 22 + 1 from rfl, pv_array,
    show (22 : Nat) = 21 + 1 from rfl, pa_open,
    skip_whitespace_cons _ (by decide),
    show (21 : Nat) = 18 + 3 from rfl,
    pal_digit_step 18 [] '1' (by decide) [']']
      (by intro c hc; simp at hc; subst hc; decide),
    skip_whitespace_cons _ (by decide),
    show (18 + 2 : Nat) = 19 + 1 from rfl, pal_close]
  simp [sw_nil, numValue_one]

theorem parse_arr1_lead : parse ("[,1]") = .ok (.array [.number 1]) := by
  apply parse_of_ok []
  rw [show ("[,1]").toList = ['[', ',', '1', ']'] from rfl,
    show 6 * (['[', ',', '1', ']'] : List Char).length + 6 = 29 + 1 from rfl,
    pel_succ, skip_whitespace_cons _ (by decide),
    show (29 : Nat) = 28 + 1 from rfl, pv_array,
    show (28 : Nat) = 27 + 1 from rfl, pa_open,
    skip_whitespace_cons _ (by decide),
    show (27 : Nat) = 24 + 3 from rfl,
    pal_comma_digit_step 24 [] '1' (by decide) [']']
      (by intro c hc; simp at hc; subst hc; decide),
    skip_whitespace_cons _ (by decide),
    show (24 + 2 : Nat) = 25 + 1 from rfl, pal_close]
  simp [sw_nil, numValue_one]

theorem parse_obj_a1 : parse ("\x7b\"a\":1\x7d") = .ok (.object [("a", .number 1)]) := by
  apply parse_of_ok []
  rw [show ("\x7b\"a\":1\x7d").toList =
      ['{', '"', 'a', '"', ':', '1', '}'] from rfl,
    show 6 * (['{', '"', 'a', '"', ':', '1', '}'] : List Char).length + 6 =
      47 + 1 from rfl,
    pel_succ, skip_whitespace_cons _ (by decide),
    show (47 : Nat) = 46 + 1 from rfl, pv_object,
    show (46 : Nat) = 45 + 1 from rfl, po_open,
    skip_whitespace_cons _ (by decide),
    show (['"', 'a', '"', ':', '1', '}'] : List Char) =
      '"' :: (['a'] ++ '"' :: ':' :: '1' :: '}' :: []) from rfl,
    show (45 : Nat) = 41 + 4 from rfl,
    pol_member_step 41 [] ['a'] (by decide) '1' (by decide) ['}']
      (by intro c hc; simp at hc; subst hc; decide),
    skip_whitespace_cons _ (by decide),
    show (41 + 3 : Nat) = 43 + 1 from rfl, pol_close]
  simp [sw_nil, numValue_one, assocInsert]

theorem parse_obj_a1_lead : parse ("\x7b,\"a\":1\x7d") = .ok (.object [("a", .number 1)]) := by
  apply parse_of_ok []
  rw [show ("\x7b,\"a\":1\x7d").toList =
      ['{', ',', '"', 'a', '"', ':', '1', '}'] from rfl,
    show 6 * (['{', ',', '"', 'a', '"', ':', '1', '}'] : List Char).length + 6 =
      53 + 1 from rfl,
    pel_succ, skip_whitespace_cons _ (by decide),
    show (53 : Nat) = 52 + 1 from rfl, pv_object,
    show (52 : Nat) = 51 + 1 from rfl, po_open,
    skip_whitespace_cons _ (by decide),
    show ([',', '"', 'a', '"', ':', '1', '}'] : List Char) =
      ',' :: '"' :: (['a'] ++ '"' :: ':' :: '1' :: '}' :: []) from rfl,
    show (51 : Nat) = 47 + 4 from rfl,
    pol_comma_member_step 47 [] ['a'] (by decide) '1' (by decide) ['}']
      (by intro c hc; simp at hc; subst hc; decide),
    skip_whitespace_cons _ (by decide),
    show (47 + 3 : Nat) = 49 + 1 from rfl, pol_close]
  simp [sw_nil, numValue_one, assocInsert]

/-- Element walk over a two-member object whose two members share the key:
the second insert overwrites the first. -/
theorem obj2_walk (h : Nat) (k : List Char)
    (hk : ∀ c ∈ k, c ≠ '"' ∧ c ≠ '\\') :
    parse_element (h + 8)
        ('{' :: '"' :: (k ++ '"' :: ':' :: '1' :: ',' :: '"' ::
          (k ++ '"' :: ':' :: '2' :: '}' :: []))) =
      .ok (.object [(String.mk k,
        .number (numValue false ['2'] none none))]) [] := by
  rw [show h + 8 = (h + 7) + 1 from rfl, pel_succ,
    skip_whitespace_cons _ (by decide),
    show h + 7 = (h + 6) + 1 from rfl, pv_object,
    show h + 6 = (h + 5) + 1 from rfl, po_open,
    skip_whitespace_cons _ (by decide),
    show h + 5 = (h + 1) + 4 from rfl,
    pol_member_step (h + 1) [] k hk '1' (by decide) _
      (by intro c hc; simp at hc; subst hc; decide),
    skip_whitespace_cons _ (by decide),
    show (h + 1) + 3 = h + 4 from rfl,
    pol_comma_member_step h _ k hk '2' (by decide) ('}' :: [])
      (by intro c hc; simp at hc; subst hc; decide),
    skip_whitespace_cons _ (by decide),
    show h + 3 = (h + 2) + 1 from rfl, pol_close]
  simp [sw_nil, assocInsert]

/-! The claims. -/

/-- Claim C1 (code bug evidence): the claim that parsing a string matching
the decimal regex yields its standard numeric value fails on the code.
On "-1.5" the code returns Some(Number(-0.5)), because the fraction is
added to the signed integer part (-1 + 0.5), not to its magnitude; and
"1e+2" (claimed to parse to 100) fails outright because parse_sign never
consumes the sign character. -/
theorem c1_negative_fraction_value :
    parse ("-1.5") = .ok (.number (-(1 : Rat)/2)) ∧ parse ("1e+2") = .fail := by
  constructor
  · have h := parse_numInput true ['1'] (some ['5']) none (by decide)
      (by decide) (by decide) (by decide) (by decide)
    rw [show String.mk (numInput true ['1'] (some ['5']) none) = "-1.5"
      from rfl] at h
    rw [h]
    norm_num [numValue, show digitsToNat ['1'] = 1 from rfl,
      show digitsToNat ['5'] = 5 from rfl]
  · rfl

/-- Claim C2 (code bug evidence): parse_sign only peeks at the sign and
never advances the cursor, so every number with an explicit exponent sign
fails: parse "1e+2" and parse "1e-2" return None, while the claim says
they succeed with exponents +2 and -2.  The unsigned form "1e2" succeeds,
and "1e" (no digits after the marker) fails as the claim states. -/
theorem c2_exponent_sign_never_consumed :
    parse ("1e+2") = .fail ∧ parse ("1e-2") = .fail ∧
    parse ("1e") = .fail ∧ parse ("1e2") = .ok (.number 100) := by
  refine ⟨rfl, rfl, rfl, ?_⟩
  have h := parse_numInput false ['1'] none (some ['2']) (by decide)
    (by decide) (by decide) (by decide) (by decide)
  rw [show String.mk (numInput false ['1'] none (some ['2'])) = "1e2"
    from rfl] at h
  rw [h]
  norm_num [numValue, show digitsToNat ['1'] = 1 from rfl,
    show digitsToNat ['2'] = 2 from rfl]

/-- Claim C3: every successfully parsed number literal of the shape
[-]digits[.digits][e digits] evaluates to
(signed integer part + fraction) * 10 ^ exponent, the fraction being the
decimal 0.<digits> added to the signed integer part (so it does not act
on the magnitude), 0 when no '.' is present, and the exponent 0 when no
'e' is present. -/
theorem c3_number_formula (sgn : Bool) (ds : List Char)
    (fs es : Option (List Char))
    (hds0 : ds ≠ []) (hds1 : ∀ c ∈ ds, isAsciiDigit c = true)
    (hds2 : digitsToNat ds < 2147483648)
    (hfs : ∀ fl ∈ fs, fl ≠ [] ∧ ∀ c ∈ fl, isAsciiDigit c = true)
    (hes : ∀ el ∈ es, el ≠ [] ∧ (∀ c ∈ el, isAsciiDigit c = true) ∧
      digitsToNat el < 2147483648) :
    parse (String.mk (numInput sgn ds fs es)) =
      .ok (.number (numValue sgn ds fs es)) :=
  parse_numInput sgn ds fs es hds0 hds1 hds2 hfs hes

/-- Witness for claim C3 at the concrete literal 2.5e1 = 25. -/
theorem c3_number_formula_witness : parse ("2.5e1") = .ok (.number 25) := by
  have h := c3_number_formula false ['2'] (some ['5']) (some ['1'])
    (by decide) (by decide) (by decide) (by decide) (by decide)
  rw [show String.mk (numInput false ['2'] (some ['5']) (some ['1'])) =
    "2.5e1" from rfl] at h
  rw [h]
  norm_num [numValue, show digitsToNat ['2'] = 2 from rfl,
    show digitsToNat ['5'] = 5 from rfl, show digitsToNat ['1'] = 1 from rfl]

/-- Counterexample to claim C4: a trailing comma before the closing
bracket IS rejected — after the loop consumes the comma it attempts a
member/element parse, which fails on the closing bracket — so
parse "[1,]" is None while the claim says it parses like "[1]". -/
theorem c4_comma_cex :
    parse ("[1,]") = .fail ∧ parse ("[1]") = .ok (.array [.number 1]) :=
  ⟨rfl, parse_arr1⟩

/-- Claim C4 as amended: a leading/stray comma before the first member or
element is consumed without validation, so "\x7b,"a":1\x7d" and "[,1]"
parse exactly like their comma-free counterparts; but a trailing comma
before the closing bracket is rejected, because after consuming it the
parser requires another member/element: "\x7b"a":1,\x7d" and "[1,]" fail. -/
theorem c4_comma_amended :
    parse ("\x7b,\"a\":1\x7d") = parse ("\x7b\"a\":1\x7d") ∧
    parse ("[,1]") = parse ("[1]") ∧
    parse ("[1]") = .ok (.array [.number 1]) ∧
    parse ("\x7b\"a\":1\x7d") = .ok (.object [("a", .number 1)]) ∧
    parse ("\x7b\"a\":1,\x7d") = .fail ∧
    parse ("[1,]") = .fail := by
  refine ⟨?_, ?_, parse_arr1, parse_obj_a1, rfl, rfl⟩
  · rw [parse_obj_a1_lead, parse_obj_a1]
  · rw [parse_arr1_lead, parse_arr1]

/-- Counterexample to claim C5: "12" is the valid element "1" followed by
the additional character "2", yet parse "12" is Some(12), not the
Some(1) that parse "1" returns — trailing content can extend the final
number token, so the parse is not always "the same Some(value)". -/
theorem c5_trailing_cex :
    parse ("12") = .ok (.number 12) ∧ parse ("1") = .ok (.number 1) ∧
    parse ("12") ≠ parse ("1") := by
  have h12 : parse ("12") = .ok (.number 12) := by
    have h := parse_numInput false ['1', '2'] none none (by decide)
      (by decide) (by decide) (by decide) (by decide)
    rw [show String.mk (numInput false ['1', '2'] none none) = "12"
      from rfl] at h
    rw [h]
    norm_num [numValue, show digitsToNat ['1', '2'] = 12 from rfl]
  have h1 : parse ("1") = .ok (.number 1) := by
    have h := parse_numInput false ['1'] none none (by decide) (by decide)
      (by decide) (by decide) (by decide)
    rw [show String.mk (numInput false ['1'] none none) = "1" from rfl] at h
    rw [h]
    norm_num [numValue, show digitsToNat ['1'] = 1 from rfl]
  refine ⟨h12, h1, ?_⟩
  rw [h12, h1]
  simp only [ne_eq, POut.ok.injEq, Value.number.injEq]
  norm_num

/-- Claim C5 as amended: the top-level parse never inspects what remains
after the element, so arbitrary non-whitespace trailing content is not an
error whenever it does not extend the element's final token — e.g. after
a self-delimiting literal or bracketed element the same value is returned
for every trailing suffix. -/
theorem c5_trailing_amended :
    (∀ t : String, parse ("true" ++ t) = .ok Value.true) ∧
    (∀ t : String, parse ("[]" ++ t) = .ok (.array [])) := by
  constructor
  · intro t
    apply parse_of_ok (skip_whitespace t.toList)
    have htl : ("true" ++ t).toList = 't' :: 'r' :: 'u' :: 'e' :: t.toList := by
      show ("true" ++ t).data = _
      rw [String.data_append]
      rfl
    rw [htl,
      show 6 * ('t' :: 'r' :: 'u' :: 'e' :: t.toList).length + 6 =
        ((6 * ('t' :: 'r' :: 'u' :: 'e' :: t.toList).length + 4) + 1) + 1
        from rfl,
      pel_succ, skip_whitespace_cons _ (by decide), pv_true,
      parse_true_spec]
  · intro t
    apply parse_of_ok (skip_whitespace t.toList)
    have htl : ("[]" ++ t).toList = '[' :: ']' :: t.toList := by
      show ("[]" ++ t).data = _
      rw [String.data_append]
      rfl
    rw [htl,
      show 6 * ('[' :: ']' :: t.toList).length + 6 =
        (((6 * ('[' :: ']' :: t.toList).length + 3) + 1) + 1) + 1 from rfl,
      pel_succ, skip_whitespace_cons _ (by decide), pv_array, pa_open,
      skip_whitespace_cons _ (by decide), pal_close]

/-- Claim C6 (code bug evidence): a panic IS reachable.  On "²" (U+00B2,
for which char::is_numeric is true but to_digit(10) is None) parse_value
dispatches to number parsing and parse_digits hits
to_digit(10).unwrap(), a panic; on "1.²" the fraction's
"0.²".parse::<f64>().unwrap() panics.  The claim that parse always
returns Some or None is violated. -/
theorem c6_panic_reachable :
    parse ("²") = .panic ∧ parse ("1.²") = .panic :=
  ⟨rfl, rfl⟩

/-- Counterexample to claim C7: the escape \f is not "any other escape
character that fails the whole parse": the code decodes it to U+0012, so
parse succeeds where the claim requires None. -/
theorem c7_escape_cex : parse ("\"\\f\"") = .ok (.str ("\x12")) := rfl

/-- Claim C7 as amended: escapes decode as claimed — \n, \t, \" (and \\,
\/, \b, \r) — plus \f, which decodes to U+0012 rather than failing; a \u
escape fails the parse, any escape character outside the table fails the
parse, and reaching end of input before the closing quote fails the
parse. -/
theorem c7_escape_amended :
    parse ("\"\\n\\t\\\"\"") = .ok (.str ("\n\t\"")) ∧
    parse ("\"\\f\"") = .ok (.str ("\x12")) ∧
    (∀ rest : List Char, parse_string ('"' :: '\\' :: 'u' :: rest) = .fail) ∧
    (∀ (e : Char) (rest : List Char), e ≠ '"' → e ≠ '\\' → e ≠ '/' →
      e ≠ 'b' → e ≠ 'f' → e ≠ 'n' → e ≠ 'r' → e ≠ 't' →
      parse_string ('"' :: '\\' :: e :: rest) = .fail) ∧
    (∀ s : List Char, '"' ∉ s → '\\' ∉ s → parse_string ('"' :: s) = .fail) := by
  refine ⟨rfl, rfl, ?_, ?_, ?_⟩
  · intro rest
    rw [ps_quote, psl_esc, show escape_char 'u' = none from by decide]
  · intro e rest h1 h2 h3 h4 h5 h6 h7 h8
    rw [ps_quote, psl_esc, show escape_char e = none from by
      simp [escape_char, h1, h2, h3, h4, h5, h6, h7, h8]]
  · intro s hq hb
    rw [ps_quote]
    exact parse_string_loop_no_quote s hq hb

/-- Witness for claim C7's amended universal parts, at the unsupported
escape z and at an unterminated string. -/
theorem c7_escape_amended_witness :
    parse_string ['"', '\\', 'z'] = .fail ∧ parse_string ['"', 'a'] = .fail := by
  constructor
  · exact c7_escape_amended.2.2.2.1 'z' [] (by decide) (by decide)
      (by decide) (by decide) (by decide) (by decide) (by decide) (by decide)
  · exact c7_escape_amended.2.2.2.2 ['a'] (by decide) (by decide)

/-- Claim C8: duplicate keys are last-write-wins — for every key string k
(free of quote and backslash characters), parsing an object with two
k-members valued 1 then 2 yields a mapping with exactly one entry for k
holding 2. -/
theorem c8_duplicate_keys (k : String)
    (hk : ∀ c ∈ k.toList, c ≠ '"' ∧ c ≠ '\\') :
    parse (String.mk ('{' :: '"' :: (k.toList ++ '"' :: ':' :: '1' :: ',' ::
        '"' :: (k.toList ++ '"' :: ':' :: '2' :: '}' :: [])))) =
      .ok (.object [(k, .number 2)]) := by
  apply parse_of_ok []
  rw [show (String.mk ('{' :: '"' :: (k.toList ++ '"' :: ':' :: '1' :: ',' ::
      '"' :: (k.toList ++ '"' :: ':' :: '2' :: '}' :: [])))).toList =
      '{' :: '"' :: (k.toList ++ '"' :: ':' :: '1' :: ',' ::
      '"' :: (k.toList ++ '"' :: ':' :: '2' :: '}' :: [])) from rfl,
    show 6 * ('{' :: '"' :: (k.toList ++ '"' :: ':' :: '1' :: ',' ::
      '"' :: (k.toList ++ '"' :: ':' :: '2' :: '}' :: []))).length + 6 =
      (12 * k.toList.length + 64) + 8 from by
        simp only [List.length_cons, List.length_append, List.length_nil]
        omega,
    obj2_walk (12 * k.toList.length + 64) k.toList hk, numValue_two]
  rfl

/-- Witness for claim C8 at the concrete key a. -/
theorem c8_duplicate_keys_witness :
    parse ("\x7b\"a\":1,\"a\":2\x7d") = .ok (.object [("a", .number 2)]) := by
  have h := c8_duplicate_keys "a" (by decide)
  rw [show String.mk ('{' :: '"' :: (("a").toList ++ '"' :: ':' :: '1' :: ',' ::
    '"' :: (("a").toList ++ '"' :: ':' :: '2' :: '}' :: []))) =
    "\x7b\"a\":1,\"a\":2\x7d" from rfl] at h
  exact h

/-- Claim C9: parse terminates on every finite input: the fuel of the
embedding, six times the input length plus six, is never exhausted —
formally parse never returns the out marker, which holds because the
cursor is forward-only and every production consumes at least one
character or fails (lemmas consume and no_out). -/
theorem c9_terminates (input : String) : parse input ≠ .out := by
  unfold parse
  cases he : parse_element (6 * input.toList.length + 6) input.toList with
  | ok v r => simp
  | fail => simp
  | panic => simp
  | out => exact absurd he ((no_out _).1 _ (by omega))

/-- Claim C10: an unescaped control character (any character other than
the quote and the backslash, including raw newlines and tabs) inside a
string literal is accepted and included verbatim in the decoded string. -/
theorem c10_control_chars (c : Char) (h1 : c ≠ '"') (h2 : c ≠ '\\') :
    parse (String.mk ['"', c, '"']) = .ok (.str (String.mk [c])) := by
  apply parse_of_ok []
  rw [show (String.mk ['"', c, '"']).toList = ['"', c, '"'] from rfl,
    show 6 * (['"', c, '"'] : List Char).length + 6 = (22 + 1) + 1 from rfl,
    pel_succ, skip_whitespace_cons _ (by decide), pv_string,
    show ('"' :: c :: ['"'] : List Char) = '"' :: ([c] ++ '"' :: []) from rfl,
    parse_string_key [c] []
      (by intro x hx; simp at hx; subst hx; exact ⟨h1, h2⟩)]
  rfl

/-- Witness for claim C10 at the raw newline control character. -/
theorem c10_control_chars_witness :
    parse ("\"\n\"") = .ok (.str ("\n")) := by
  have h := c10_control_chars '\n' (by decide) (by decide)
  rw [show String.mk ['"', '\n', '"'] = "\"\n\"" from rfl,
    show String.mk ['\n'] = "\n" from rfl] at h
  exact h

end JsonParser
